import Mathlib

set_option maxHeartbeats 1600000

/-! Shallow embedding of `scraper.py` from the screen-boston movie-calendar
repository.

Python strings are modelled as Lean `String`; exceptions that the code
catches locally are modelled by `Option`/`.ok none`, exceptions that can
escape a function by `Except PyErr`.  The external calendar sink is a list
of remote events; its fallible insert/delete/list calls are driven by
boolean oracles.  Date-time values are records of integer fields; the
arithmetic of Python's `datetime` (normalisation through month and day
carries, `OverflowError` outside years 1..9999) and the relevant pieces of
`strptime`/`strftime` (the regular expressions of `_strptime.TimeRE`) are
translated operation by operation. -/

inductive PyErr where
  | valueError
  | httpError
  | overflowError
deriving DecidableEq, Repr

/-- Whitespace as treated by Python's `str.strip`, `str.split()` and the
regex class matched for a blank in a `strptime` format string. -/
def wsChar (c : Char) : Bool :=
  c = ' ' || c = '\t' || c = '\n' || c = '\r' || c = '\x0b' || c = '\x0c'

/-- Python `str.strip()` on a character list. -/
def pyStrip (l : List Char) : List Char :=
  ((l.dropWhile wsChar).reverse.dropWhile wsChar).reverse

/-- Python `str.strip()`. -/
def pyStripS (s : String) : String := ⟨pyStrip s.data⟩

/-- Does `p` occur at the head of `l`? -/
def listPrefixOf : List Char → List Char → Bool
  | [], _ => true
  | _ :: _, [] => false
  | a :: as, b :: bs => a = b && listPrefixOf as bs

/-- Does `p` occur anywhere in `l`?  (Python `p in l` on strings.) -/
def subAt : List Char → List Char → Bool
  | p, [] => listPrefixOf p []
  | p, c :: rest => listPrefixOf p (c :: rest) || subAt p rest

/-- Python `needle in haystack` for strings. -/
def strContains (haystack needle : String) : Bool :=
  subAt needle.data haystack.data

/-- Decimal digit value of a character, `none` on a non-digit. -/
def charDigit : Char → Option Nat
  | '9' => some 9
  | '8' => some 8
  | '7' => some 7
  | '6' => some 6
  | '5' => some 5
  | '4' => some 4
  | '3' => some 3
  | '2' => some 2
  | '1' => some 1
  | '0' => some 0
  | _ => none

/-- Decimal digit character for a value below ten. -/
def dchN : Nat → Char
  | 0 => '0'
  | 1 => '1'
  | 2 => '2'
  | 3 => '3'
  | 4 => '4'
  | 5 => '5'
  | 6 => '6'
  | 7 => '7'
  | 8 => '8'
  | 9 => '9'
  | _ => '?'

def natCharsGo : Nat → Nat → List Char
  | 0, _ => []
  | f + 1, n =>
    if n < 10 then [dchN n] else natCharsGo f (n / 10) ++ [dchN (n % 10)]

/-- Decimal representation of a natural number (as printf `%d`). -/
def natChars (n : Nat) : List Char := natCharsGo (n + 1) n

/-- `%02d`: two-digit zero-padded decimal of a field value. -/
def pad2 (v : Int) : List Char :=
  if v < 0 then '-' :: natChars v.natAbs
  else if v < 100 then [dchN (v.toNat / 10), dchN (v.toNat % 10)]
  else natChars v.toNat

/-- `%04d`: four-digit zero-padded decimal (as `strftime` `%Y`). -/
def pad4 (v : Int) : List Char :=
  if v < 0 then '-' :: natChars v.natAbs
  else if v < 10000 then
    [dchN (v.toNat / 1000), dchN (v.toNat / 100 % 10),
     dchN (v.toNat / 10 % 10), dchN (v.toNat % 10)]
  else natChars v.toNat

/-- A (naive) Python `datetime` value: integer calendar fields. -/
structure DT where
  year : Int
  month : Int
  day : Int
  hour : Int
  minute : Int
  second : Int
deriving DecidableEq, Repr

/-- Python `calendar`-style leap year test (proleptic Gregorian). -/
def isLeap (y : Int) : Bool := (y % 4 = 0 && y % 100 ≠ 0) || y % 400 = 0

/-- Days in a month of a year. -/
def dim (y m : Int) : Int :=
  if m = 2 then (if isLeap y then 29 else 28)
  else if m = 4 ∨ m = 6 ∨ m = 9 ∨ m = 11 then 30
  else 31

/-- Day of week, Sunday = 0 (Sakamoto's method, proleptic Gregorian;
agrees with `datetime.weekday` up to the numbering convention). -/
def dow (y m d : Int) : Int :=
  let t : List Int := [0, 3, 2, 5, 0, 3, 5, 1, 4, 6, 2, 4]
  let y' : Int := if m < 3 then y - 1 else y
  (y' + y' / 4 - y' / 100 + y' / 400 +
    t.getD (m - 1).toNat 0 + d) % 7

/-- Day of the month of the second Sunday of March of a year. -/
def secondSunMarch (y : Int) : Int := 8 + (7 - dow y 3 8) % 7

/-- Day of the month of the first Sunday of November of a year. -/
def firstSunNov (y : Int) : Int := 1 + (7 - dow y 11 1) % 7

/-- Is a naive local America/New_York time in DST, as `pytz.localize`
resolves it with its default `is_dst=False` (nonexistent 02:xx of the
spring-forward day and ambiguous 01:xx of the fall-back day both read as
standard time)?  The US rule in force since 2007 is applied uniformly. -/
def isNyDst (dt : DT) : Bool :=
  let ss := secondSunMarch dt.year
  let fs := firstSunNov dt.year
  decide ((3 < dt.month ∨ (dt.month = 3 ∧ (ss < dt.day ∨ (dt.day = ss ∧ 3 ≤ dt.hour)))) ∧
    (dt.month < 11 ∨ (dt.month = 11 ∧ (dt.day < fs ∨ (dt.day = fs ∧ dt.hour < 1)))))

/-- Seconds to add to a local New York time to obtain UTC. -/
def nyOffsetSeconds (dt : DT) : Int := if isNyDst dt then 14400 else 18000

/-- Normalise an out-of-range day-of-month by stepping through adjacent
months (the month is assumed already in 1..12, as everywhere in this
model); the fuel always suffices for the inputs we construct. -/
def normDate : Nat → Int → Int → Int → Int × Int × Int
  | 0, y, m, d => (y, m, d)
  | fuel + 1, y, m, d =>
    if d < 1 then
      let y' := if m = 1 then y - 1 else y
      let m' := if m = 1 then 12 else m - 1
      normDate fuel y' m' (d + dim y' m')
    else if dim y m < d then
      let y' := if m = 12 then y + 1 else y
      let m' := if m = 12 then 1 else m + 1
      normDate fuel y' m' (d - dim y m)
    else (y, m, d)

/-- `datetime + timedelta(seconds=..)`: the field normalisation performed
by CPython's datetime arithmetic, without the year range check. -/
def pyAddSeconds (dt : DT) (delta : Int) : DT :=
  let tot := dt.hour * 3600 + dt.minute * 60 + dt.second + delta
  let dShift := tot / 86400
  let r := tot % 86400
  let ymd := normDate ((dt.day + dShift).natAbs + 400) dt.year dt.month (dt.day + dShift)
  ⟨ymd.1, ymd.2.1, ymd.2.2, r / 3600, r % 3600 / 60, r % 60⟩

/-- `datetime` arithmetic with the `OverflowError` raised by CPython when
the result leaves years 1..9999. -/
def pyAddSecondsE (dt : DT) (delta : Int) : Except PyErr DT :=
  let r := pyAddSeconds dt delta
  if 1 ≤ r.year ∧ r.year ≤ 9999 then .ok r else .error .overflowError

/-- `local_tz.localize(dt).astimezone(pytz.utc)` for the fixed
America/New_York timezone of the script. -/
def nyToUtcE (dt : DT) : Except PyErr DT := pyAddSecondsE dt (nyOffsetSeconds dt)

/-! ### `strptime` component matchers

Each matcher mirrors the regular expression that Python's
`_strptime.TimeRE` compiles for the corresponding directive (alternatives
tried in the regex order, case-insensitively where the pattern is). -/

/-- `%I`: regex `1[0-2]|0[1-9]|[1-9]`; also `%m` (same pattern). -/
def matchTwelve : List Char → Option (Nat × List Char)
  | [] => none
  | c1 :: rest1 =>
    match charDigit c1, rest1 with
    | none, _ => none
    | some d1, [] => if 1 ≤ d1 then some (d1, []) else none
    | some d1, c2 :: rest2 =>
      match charDigit c2 with
      | some d2 =>
        if d1 = 1 ∧ d2 ≤ 2 then some (10 + d2, rest2)
        else if d1 = 0 ∧ 1 ≤ d2 then some (d2, rest2)
        else if 1 ≤ d1 then some (d1, c2 :: rest2)
        else none
      | none => if 1 ≤ d1 then some (d1, c2 :: rest2) else none

/-- `%M`: regex `[0-5]\d|\d`. -/
def matchMin : List Char → Option (Nat × List Char)
  | [] => none
  | c1 :: rest1 =>
    match charDigit c1, rest1 with
    | none, _ => none
    | some d1, [] => some (d1, [])
    | some d1, c2 :: rest2 =>
      match charDigit c2 with
      | some d2 => if d1 ≤ 5 then some (10 * d1 + d2, rest2) else some (d1, c2 :: rest2)
      | none => some (d1, c2 :: rest2)

/-- `%H`: regex `2[0-3]|[0-1]\d|\d`. -/
def matchHour : List Char → Option (Nat × List Char)
  | [] => none
  | c1 :: rest1 =>
    match charDigit c1, rest1 with
    | none, _ => none
    | some d1, [] => some (d1, [])
    | some d1, c2 :: rest2 =>
      match charDigit c2 with
      | some d2 =>
        if d1 = 2 ∧ d2 ≤ 3 then some (20 + d2, rest2)
        else if d1 ≤ 1 then some (10 * d1 + d2, rest2)
        else some (d1, c2 :: rest2)
      | none => some (d1, c2 :: rest2)

/-- `%d`: regex `3[01]|[12]\d|0[1-9]|[1-9]`. -/
def matchDay : List Char → Option (Nat × List Char)
  | [] => none
  | c1 :: rest1 =>
    match charDigit c1, rest1 with
    | none, _ => none
    | some d1, [] => if 1 ≤ d1 then some (d1, []) else none
    | some d1, c2 :: rest2 =>
      match charDigit c2 with
      | some d2 =>
        if d1 = 3 ∧ d2 ≤ 1 then some (30 + d2, rest2)
        else if d1 = 1 ∨ d1 = 2 then some (10 * d1 + d2, rest2)
        else if d1 = 0 ∧ 1 ≤ d2 then some (d2, rest2)
        else if 1 ≤ d1 then some (d1, c2 :: rest2)
        else none
      | none => if 1 ≤ d1 then some (d1, c2 :: rest2) else none

/-- `%S`: regex `6[0-1]|[0-5]\d|\d`. -/
def matchSec : List Char → Option (Nat × List Char)
  | [] => none
  | c1 :: rest1 =>
    match charDigit c1, rest1 with
    | none, _ => none
    | some d1, [] => some (d1, [])
    | some d1, c2 :: rest2 =>
      match charDigit c2 with
      | some d2 =>
        if d1 = 6 ∧ d2 ≤ 1 then some (60 + d2, rest2)
        else if d1 ≤ 5 then some (10 * d1 + d2, rest2)
        else some (d1, c2 :: rest2)
      | none => some (d1, c2 :: rest2)

/-- `%Y`: regex `\d\d\d\d` (exactly four digits). -/
def matchYear4 : List Char → Option (Nat × List Char)
  | c1 :: c2 :: c3 :: c4 :: rest =>
    match charDigit c1, charDigit c2, charDigit c3, charDigit c4 with
    | some a, some b, some c, some d => some (1000 * a + 100 * b + 10 * c + d, rest)
    | _, _, _, _ => none
  | _ => none

/-- A whitespace character in the format matches one or more input
whitespace characters. -/
def matchWs : List Char → Option (List Char)
  | [] => none
  | c :: rest => if wsChar c then some (rest.dropWhile wsChar) else none

/-- A literal character of the format (matched exactly). -/
def expectCh (c : Char) : List Char → Option (List Char)
  | [] => none
  | x :: rest => if x = c then some rest else none

/-- A literal letter of the format: `strptime` compiles the whole pattern
with `re.IGNORECASE`, so a letter matches both cases. -/
def expectChCI (c : Char) : List Char → Option (List Char)
  | [] => none
  | x :: rest => if x.toLower = c.toLower then some rest else none

/-- Strip a case-insensitive literal word from the head of the input. -/
def stripWordCI : List Char → List Char → Option (List Char)
  | [], cs => some cs
  | _ :: _, [] => none
  | p :: ps, c :: cs => if p.toLower = c.toLower then stripWordCI ps cs else none

/-- Try a list of named alternatives in order (regex alternation); none of
the names used here is a prefix of another, matching the behaviour of the
length-sorted alternation `_strptime` builds. -/
def matchNameCI : List (List Char × Nat) → List Char → Option (Nat × List Char)
  | [], _ => none
  | (w, v) :: rest, cs =>
    match stripWordCI w cs with
    | some cs' => some (v, cs')
    | none => matchNameCI rest cs

/-- `%A`: the locale's full weekday names (the parsed value is not used by
`strptime` when a complete date is present). -/
def matchWeekday (cs : List Char) : Option (Nat × List Char) :=
  matchNameCI
    [("Monday".data, 0), ("Tuesday".data, 1), ("Wednesday".data, 2),
     ("Thursday".data, 3), ("Friday".data, 4), ("Saturday".data, 5),
     ("Sunday".data, 6)] cs

/-- `%B`: the locale's full month names. -/
def matchMonthName (cs : List Char) : Option (Nat × List Char) :=
  matchNameCI
    [("January".data, 1), ("February".data, 2), ("March".data, 3),
     ("April".data, 4), ("May".data, 5), ("June".data, 6),
     ("July".data, 7), ("August".data, 8), ("September".data, 9),
     ("October".data, 10), ("November".data, 11), ("December".data, 12)] cs

/-- `%p`: the locale's AM/PM markers, case-insensitively; `0` for AM, `1`
for PM. -/
def matchAmPm (cs : List Char) : Option (Nat × List Char) :=
  matchNameCI [("AM".data, 0), ("PM".data, 1)] cs

/-- Hour-of-day from `%I` and `%p` as `_strptime` combines them. -/
def hourFrom12 (h12 ampm : Nat) : Nat :=
  if ampm = 1 then (if h12 = 12 then 12 else h12 + 12)
  else (if h12 = 12 then 0 else h12)

/-- `datetime.strptime(s, "%I:%M %p")` (the format of
`validate_showtime`): `some` of (hour12, minute, am/pm) on success. -/
def parseShowtime (s : String) : Option (Nat × Nat × Nat) :=
  match matchTwelve s.data with
  | none => none
  | some (h12, r1) =>
    match expectCh ':' r1 with
    | none => none
    | some r2 =>
      match matchMin r2 with
      | none => none
      | some (mi, r3) =>
        match matchWs r3 with
        | none => none
        | some r4 =>
          match matchAmPm r4 with
          | none => none
          | some (ap, r5) =>
            if r5 = [] then some (h12, mi, ap) else none

/-- `validate_showtime` of `scraper.py`: true iff the string parses with
format `"%I:%M %p"`; the `ValueError` is caught and turned into `False`. -/
def validate_showtime (s : String) : Bool := (parseShowtime s).isSome

/-- `datetime.strptime(s, "%A, %B %d %Y %I:%M %p")` — the script's
`DATE_FORMAT` — including the calendar validity checks of the `datetime`
constructor.  `none` models the caught `ValueError`. -/
def parseDateLong (s : String) : Option DT :=
  match matchWeekday s.data with
  | none => none
  | some (_, r1) =>
    match expectCh ',' r1 with
    | none => none
    | some r2 =>
      match matchWs r2 with
      | none => none
      | some r3 =>
        match matchMonthName r3 with
        | none => none
        | some (mo, r4) =>
          match matchWs r4 with
          | none => none
          | some r5 =>
            match matchDay r5 with
            | none => none
            | some (dy, r6) =>
              match matchWs r6 with
              | none => none
              | some r7 =>
                match matchYear4 r7 with
                | none => none
                | some (yr, r8) =>
                  match matchWs r8 with
                  | none => none
                  | some r9 =>
                    match matchTwelve r9 with
                    | none => none
                    | some (h12, r10) =>
                      match expectCh ':' r10 with
                      | none => none
                      | some r11 =>
                        match matchMin r11 with
                        | none => none
                        | some (mi, r12) =>
                          match matchWs r12 with
                          | none => none
                          | some r13 =>
                            match matchAmPm r13 with
                            | none => none
                            | some (ap, r14) =>
                              if r14 = [] ∧ 1 ≤ yr ∧ 1 ≤ dy ∧ (dy : Int) ≤ dim yr mo then
                                some ⟨yr, mo, dy, hourFrom12 h12 ap, mi, 0⟩
                              else none

/-- `%z`: regex `[+-]\d\d:?[0-5]\d(:?[0-5]\d(\.\d{1,6})?)?|Z` (the `Z`
alternative is case-sensitive); returns the UTC offset in seconds.  The
up-to-six fractional digits are consumed and their sub-second contribution
disregarded.  A computed offset of a day or more makes `timezone()` raise
`ValueError`, i.e. the parse fails. -/
def matchZoff : List Char → Option (Int × List Char)
  | [] => none
  | 'Z' :: rest => some (0, rest)
  | c :: rest =>
    if c = '+' ∨ c = '-' then
      match rest with
      | h1 :: h2 :: rest2 =>
        match charDigit h1, charDigit h2 with
        | some a, some b =>
          let rest3 := match rest2 with
            | ':' :: r => r
            | r => r
          match rest3 with
          | m1 :: m2 :: rest4 =>
            match charDigit m1, charDigit m2 with
            | some x, some y =>
              if x ≤ 5 then
                let hh : Int := 10 * a + b
                let mm : Int := 10 * x + y
                let secPart : Option (Int × List Char) :=
                  match (match rest4 with | ':' :: r => r | r => r) with
                  | s1 :: s2 :: rest5 =>
                    match charDigit s1, charDigit s2 with
                    | some u, some v =>
                      if u ≤ 5 then
                        let rest6 := match rest5 with
                          | '.' :: f1 :: r =>
                            if (charDigit f1).isSome then
                              some ((f1 :: r).dropWhile (fun ch => (charDigit ch).isSome) |>.drop 0)
                            else none
                          | r => some r
                        match rest6 with
                        | some r => some ((10 * u + v : Nat), r)
                        | none => none
                      else none
                    | _, _ => none
                  | _ => none
                let (ss, restF) := match secPart with
                  | some (s, r) => (s, r)
                  | none => (0, rest4)
                let total : Int := hh * 3600 + mm * 60 + ss
                if total < 86400 then
                  some (if c = '-' then -total else total, restF)
                else none
              else none
            | _, _ => none
          | _ => none
        | _, _ => none
      | _ => none
    else none

/-- `strftime('%Y-%m-%dT%H:%M:%SZ')` on a datetime value. -/
def fmtUTC (dt : DT) : String :=
  ⟨pad4 dt.year ++ '-' :: pad2 dt.month ++ '-' :: pad2 dt.day ++
    'T' :: pad2 dt.hour ++ ':' :: pad2 dt.minute ++ ':' :: pad2 dt.second ++ ['Z']⟩

/-- `datetime.strptime(s, '%Y-%m-%dT%H:%M:%S%z')` as used when re-indexing
existing events: `some` of the parsed naive fields and the UTC offset in
seconds.  `none` models the `ValueError`. -/
def parseIsoZ (s : String) : Option (DT × Int) :=
  match matchYear4 s.data with
  | none => none
  | some (yr, r1) =>
    match expectCh '-' r1 with
    | none => none
    | some r2 =>
      match matchTwelve r2 with
      | none => none
      | some (mo, r3) =>
        match expectCh '-' r3 with
        | none => none
        | some r4 =>
          match matchDay r4 with
          | none => none
          | some (dy, r5) =>
            match expectChCI 'T' r5 with
            | none => none
            | some r6 =>
              match matchHour r6 with
              | none => none
              | some (hh, r7) =>
                match expectCh ':' r7 with
                | none => none
                | some r8 =>
                  match matchMin r8 with
                  | none => none
                  | some (mi, r9) =>
                    match expectCh ':' r9 with
                    | none => none
                    | some r10 =>
                      match matchSec r10 with
                      | none => none
                      | some (ss, r11) =>
                        match matchZoff r11 with
                        | none => none
                        | some (off, r12) =>
                          if r12 = [] ∧ 1 ≤ yr ∧ 1 ≤ dy ∧ (dy : Int) ≤ dim yr mo ∧ ss ≤ 59 then
                            some (⟨yr, mo, dy, hh, mi, ss⟩, off)
                          else none

/-! ### Runtime parsing and the extractor -/

/-- Python `str.split(sep)` for a single-character separator: split at
every occurrence, keeping empty pieces. -/
def splitChar (sep : Char) : List Char → List (List Char)
  | [] => [[]]
  | c :: rest =>
    if c = sep then [] :: splitChar sep rest
    else
      match splitChar sep rest with
      | t :: ts => (c :: t) :: ts
      | [] => [[c]]

/-- Python `s.split(sep)` on strings, single-character separator. -/
def pySplitChar (sep : Char) (s : String) : List String :=
  (splitChar sep s.data).map String.mk

def pyIntDigits : Nat → List Char → Option Nat
  | acc, [] => some acc
  | acc, '_' :: c :: rest =>
    match charDigit c with
    | some d => pyIntDigits (acc * 10 + d) rest
    | none => none
  | _, ['_'] => none
  | acc, c :: rest =>
    match charDigit c with
    | some d => pyIntDigits (acc * 10 + d) rest
    | none => none

/-- Python `int(s)` on a whitespace-free token: optional sign, then digits
with single underscores allowed between them; `none` is the
`ValueError`. -/
def pyInt (s : String) : Option Int :=
  match s.data with
  | '+' :: c :: rest =>
    match charDigit c with
    | some d => (pyIntDigits d rest).map Int.ofNat
    | none => none
  | '-' :: c :: rest =>
    match charDigit c with
    | some d => (pyIntDigits d rest).map (fun n => -(n : Int))
    | none => none
  | c :: rest =>
    match charDigit c with
    | some d => (pyIntDigits d rest).map Int.ofNat
    | none => none
  | [] => none

/-- `runtime.replace('h', '').replace('m', '').strip().split()` followed by
`hours, minutes = map(int, ...)`: `some (hours, minutes)` on success,
`none` for the `ValueError` (non-integer token or a token count other than
two) that line 228 of the script catches. -/
def parseRuntime (runtime : String) : Option (Int × Int) :=
  let cleaned := (runtime.data.filter (fun c => c ≠ 'h')).filter (fun c => c ≠ 'm')
  let tokens := (List.splitOnP wsChar (pyStrip cleaned)).filter (fun t => t ≠ [])
  match tokens with
  | [t1, t2] =>
    match pyInt ⟨t1⟩, pyInt ⟨t2⟩ with
    | some a, some b => some (a, b)
    | _, _ => none
  | _ => none

/-- One extracted showing record (the dict appended by `scrap_movies`). -/
structure Movie where
  date : String
  title : String
  format : Option String
  director : String
  year : String
  genre : String
  runtime : String
  theater : String
  showtimes : List String
deriving DecidableEq, Repr

/-- One showing block (a `button.w-full...` element) as the extractor
reads it: the stripped text of its `p.big` title node (`none` when the
node is absent), the optional format tag text, the stripped texts of the
positional `p` description fragments, and the strings of all its `p`
descendants (scanned for showtimes). -/
structure MovieBlock where
  bigText : Option String
  formatText : Option String
  details : List String
  pstrings : List String
deriving DecidableEq, Repr

/-- One date container (`div.max-w-screen`): its `id` attribute (default
`''`) and the stripped text of its `p.small` date label, plus its showing
blocks. -/
structure DateContainer where
  cid : String
  dateText : Option String
  blocks : List MovieBlock
deriving DecidableEq, Repr

/-- The body of the per-movie `try` block of `scrap_movies`: `none` models
a caught exception — `AttributeError` when the `p.big` title node is
missing, `IndexError` when the comma-split of the year/genre/runtime
fragment has fewer than two entries (the access `[1]`). -/
def scrapBlock (completeDate : String) (b : MovieBlock) : Option Movie :=
  match b.bigText with
  | none => none
  | some title =>
    let director := b.details.headD "Unknown Director"
    let ygr := b.details.getD 1 "Unknown Details"
    let arr := pySplitChar ',' ygr
    let theater := b.details.getD 2 "Unknown Theater"
    let sts := (b.pstrings.filter
        (fun t => strContains t "PM" || strContains t "AM")).map pyStripS
    if 2 ≤ arr.length then
      some { date := completeDate, title := title, format := b.formatText,
             director := director, year := arr.headD "",
             genre := arr.getD 1 "",
             runtime := arr.getD 2 "0h 0m", theater := theater,
             showtimes := if sts = [] then ["Unknown Showtimes"] else sts }
    else none

/-- Processing of one date container by `scrap_movies`: the year is split
out of the container id, the complete date string is the label plus the
year, a container whose label is the literal `'Unknown Date'` sentinel is
skipped, and each block that raises a caught exception is dropped. -/
def processContainer (c : DateContainer) : List Movie :=
  let dateText := c.dateText.getD "Unknown Date"
  let year := (pySplitChar '-' c.cid).headD ""
  let complete := dateText ++ " " ++ year
  if dateText = "Unknown Date" then []
  else c.blocks.filterMap (scrapBlock complete)

/-- `scrap_movies` of `scraper.py`, as a function of the parsed page
(the list of date containers found in the markup). -/
def scrap_movies (cs : List DateContainer) : List Movie :=
  cs.flatMap processContainer

/-! ### The calendar sink, the event index, and the reconciler -/

/-- A remote calendar event as this script sees it: its id, its `summary`,
the `dateTime` strings of `start` and `end` (`none` when the key is
absent, as for all-day events), plus location and description. -/
structure RemoteEvent where
  id : String
  summary : String
  startDT : Option String
  endDT : Option String
  location : String
  description : String
deriving DecidableEq, Repr

/-- The `existing_events_dict`: a lookup from (stripped title, UTC start
string) to a remote event id. -/
def EvDict := (String × String) → Option String

/-- Python dict assignment `d[k] = v`. -/
def updD (d : EvDict) (k : String × String) (v : String) : EvDict :=
  fun k' => if k' = k then some v else d k'

/-- The per-event step of `fetch_all_existing_events`: events with an
empty stripped summary or an empty `dateTime` are skipped (`.ok none`);
otherwise the start is parsed with `'%Y-%m-%dT%H:%M:%S%z'`, converted to
UTC and reformatted — an unparsable start raises `ValueError` and an
out-of-range conversion raises `OverflowError`, neither caught. -/
def fetchEventKey (e : RemoteEvent) : Except PyErr (Option (String × String)) :=
  let title := pyStripS e.summary
  let start := pyStripS (e.startDT.getD "")
  if title ≠ "" ∧ start ≠ "" then
    match parseIsoZ start with
    | none => .error .valueError
    | some (dt, off) =>
      match pyAddSecondsE dt (-off) with
      | .error err => .error err
      | .ok utc => .ok (some (title, fmtUTC utc))
  else .ok none

def fetchAllAux : List RemoteEvent → EvDict → Except PyErr EvDict
  | [], d => .ok d
  | e :: rest, d =>
    match fetchEventKey e with
    | .error err => .error err
    | .ok none => fetchAllAux rest d
    | .ok (some k) => fetchAllAux rest (updD d k e.id)

/-- `fetch_all_existing_events`: enumerate the sink (pagination flattened
into the single event list) into the event index. -/
def fetch_all_existing_events (st : List RemoteEvent) : Except PyErr EvDict :=
  fetchAllAux st (fun _ => none)

/-- Python `set.add` on an insertion-ordered model of `new_event_ids`. -/
def setAdd (ids : List String) (i : String) : List String :=
  if i ∈ ids then ids else ids ++ [i]

/-- The date/duration computation of the reconciler's `try` block, up to
the two formatted UTC instants: `.ok none` is the caught `ValueError`
(unparsable composed datetime or runtime text), `.error` the uncaught
`OverflowError` of the datetime arithmetic. -/
def computeTimes (date runtime showtime : String) : Except PyErr (Option (String × String)) :=
  match parseDateLong (date ++ " " ++ showtime) with
  | none => .ok none
  | some dtLocal =>
    match parseRuntime runtime with
    | none => .ok none
    | some (h, m) =>
      match pyAddSecondsE dtLocal (h * 3600 + m * 60) with
      | .error e => .error e
      | .ok endLocal =>
        match nyToUtcE dtLocal with
        | .error e => .error e
        | .ok utcStart =>
          match nyToUtcE endLocal with
          | .error e => .error e
          | .ok utcEnd => .ok (some (fmtUTC utcStart, fmtUTC utcEnd))

/-- Python string interpolation of an optional value (`None` prints as
`"None"`). -/
def pyFStrOpt : Option String → String
  | some s => s
  | none => "None"

/-- The `description` field of the inserted event body. -/
def movieDescription (mv : Movie) : String :=
  pyFStrOpt mv.format ++ "\nDirector: " ++ mv.director ++ "\n" ++
  mv.year ++ ", " ++ mv.genre ++ ", " ++ mv.runtime ++ "\nTheater: " ++ mv.theater

/-- The server-generated id of a newly inserted event (modelled as a
function of the current sink size). -/
def mkEventId (n : Nat) : String := ⟨'g' :: 'e' :: 'n' :: natChars n⟩

/-- The running state of one `update_google_calendar` call: the sink, the
`new_event_ids` set, the number of insert calls made so far (the index
into the insert-failure oracle) and the ids actually inserted. -/
structure RunAcc where
  state : List RemoteEvent
  newIds : List String
  insCalls : Nat
  insertedIds : List String
deriving DecidableEq, Repr

/-- One showtime of one movie inside the reconciler loop.  An invalid
showtime or a caught `ValueError` leaves everything unchanged; a probe hit
records the existing id; a probe miss inserts (an `HttpError` of the
insert call — oracle `insFail` — is not caught: only `ValueError` is). -/
def processShowtime (insFail : Nat → Bool) (d : EvDict) (mv : Movie) (s : String)
    (acc : RunAcc) : Except PyErr RunAcc :=
  if validate_showtime s = false then .ok acc
  else
    match computeTimes mv.date mv.runtime s with
    | .error e => .error e
    | .ok none => .ok acc
    | .ok (some (stStr, enStr)) =>
      let key := (pyStripS mv.title, stStr)
      match d key with
      | some eid => .ok { acc with newIds := setAdd acc.newIds eid }
      | none =>
        if insFail acc.insCalls then .error .httpError
        else
          let newId := mkEventId acc.state.length
          let ev : RemoteEvent :=
            { id := newId, summary := mv.title, startDT := some stStr,
              endDT := some enStr, location := mv.theater,
              description := movieDescription mv }
          .ok { state := acc.state ++ [ev],
                newIds := setAdd acc.newIds newId,
                insCalls := acc.insCalls + 1,
                insertedIds := acc.insertedIds ++ [newId] }

def processShowtimes (insFail : Nat → Bool) (d : EvDict) (mv : Movie) :
    List String → RunAcc → Except PyErr RunAcc
  | [], acc => .ok acc
  | s :: rest, acc =>
    match processShowtime insFail d mv s acc with
    | .error e => .error e
    | .ok acc' => processShowtimes insFail d mv rest acc'

def processMovies (insFail : Nat → Bool) (d : EvDict) :
    List Movie → RunAcc → Except PyErr RunAcc
  | [], acc => .ok acc
  | mv :: rest, acc =>
    match processShowtimes insFail d mv mv.showtimes acc with
    | .error e => .error e
    | .ok acc' => processMovies insFail d rest acc'

/-- `update_google_calendar`: build the event index once, then walk the
movies and their showtimes, probing the index before each insert.  The
index is never updated during the run. -/
def update_google_calendar (insFail : Nat → Bool) (st : List RemoteEvent)
    (movies : List Movie) : Except PyErr RunAcc :=
  match fetch_all_existing_events st with
  | .error e => .error e
  | .ok d => processMovies insFail d movies ⟨st, [], 0, []⟩

/-! ### Purge operations (`delete_events`) -/

/-- The inner retry loop of `delete_events` for one event, from retry
count `rc` with the remaining attempt budget as fuel: returns (deleted?,
attempts made, the slept backoff delays).  Each failed attempt `rc` sleeps
`2 ** (rc + 1)` seconds after incrementing the counter. -/
def delAttempt (o : String → Nat → Bool) (eid : String) : Nat → Nat → Bool × Nat × List Nat
  | 0, _ => (false, 0, [])
  | fuel + 1, rc =>
    if o eid rc then
      let r := delAttempt o eid fuel (rc + 1)
      (r.1, r.2.1 + 1, 2 ^ (rc + 1) :: r.2.2)
    else (true, 1, [])

/-- The `while retry_count < 3` loop for one event. -/
def delOne (o : String → Nat → Bool) (eid : String) : Bool × Nat × List Nat :=
  delAttempt o eid 3 0

/-- The observable outcome of a purge: the ids actually deleted, and per
event the number of delete attempts and the slept delays. -/
structure PurgeResult where
  deleted : List String
  trace : List (String × Nat × List Nat)
deriving DecidableEq, Repr

def purgePage (o : String → Nat → Bool) (pg : List String) (acc : PurgeResult) : PurgeResult :=
  pg.foldl (fun a eid =>
    let r := delOne o eid
    { deleted := a.deleted ++ (if r.1 then [eid] else []),
      trace := a.trace ++ [(eid, r.2.1, r.2.2)] }) acc

/-- The paginated `while True` loop of `delete_events`: `pages` is the
sequence of list-call results, `listFail` says whether the i-th list call
raises `HttpError`; an empty page breaks out of the loop. -/
def purgeLoop (o : String → Nat → Bool) (listFail : Nat → Bool) :
    List (List String) → Nat → PurgeResult → PurgeResult × Option PyErr
  | [], _, acc => (acc, none)
  | pg :: rest, idx, acc =>
    if listFail idx then (acc, some .httpError)
    else if pg = [] then (acc, none)
    else purgeLoop o listFail rest (idx + 1) (purgePage o pg acc)

/-- `delete_events`: the whole pagination loop runs inside one
`try/except HttpError`; a list-call failure is caught there once — the
deletions already performed stand, the rest of the purge is abandoned, and
nothing propagates to the caller. -/
def delete_events (listFail : Nat → Bool) (pages : List (List String))
    (o : String → Nat → Bool) : Except PyErr PurgeResult :=
  match purgeLoop o listFail pages 0 ⟨[], []⟩ with
  | (acc, some .httpError) => .ok acc
  | (_, some e) => .error e
  | (acc, none) => .ok acc

/-! ### The command dispatcher (`run`) -/

/-- The five observable actions of `run`. -/
inductive RunAct where
  | logExisting
  | purgeFuture
  | purgeAll
  | sync
deriving DecidableEq, Repr

/-- The control flow of `run` as a function of the four flags: each of the
first three branches returns early; `reset` adds a future purge and falls
through to the scrape-and-reconcile path. -/
def runActions (seeExisting deleteFuture deleteAll reset : Bool) : List RunAct :=
  if seeExisting then [.logExisting]
  else if deleteFuture then [.purgeFuture]
  else if deleteAll then [.purgeAll]
  else (if reset then [RunAct.purgeFuture] else []) ++ [RunAct.sync]

/-! ### Lemmas: purge retry behaviour -/

/-! ### Concrete fixtures for the claim instances -/

def c7Container : DateContainer :=
  ⟨"2024-06-15", some "Saturday, June 15",
   [(⟨some "T", none, ["D", "2024,Drama,1h 45m", "Th"], []⟩ : MovieBlock)]⟩

def c7WMovie : Movie :=
  { date := "Saturday, June 15 2024", title := "T", format := none,
    director := "D", year := "2024", genre := "Drama", runtime := "1h 45m",
    theater := "Th", showtimes := ["Unknown Showtimes"] }

def c3Oracle : String → Nat → Bool := fun e k => (e = "a" && decide (k < 2)) || e = "b"

def c3Page : List String := ["a", "b", "c"]

def c5FailBlock : MovieBlock := ⟨none, none, ["Dir"], ["7:30 PM"]⟩

def c5GoodBlock : MovieBlock :=
  ⟨some "Good", none, ["Dir", "2024,Drama,1h 45m", "T"], ["7:30 PM"]⟩

def c8BadMovie : Movie :=
  { date := "Saturday, June 15 2024", title := "Bad", format := none,
    director := "D", year := "2024", genre := "Drama", runtime := "??",
    theater := "T", showtimes := ["7:30 PM"] }

def c10Block : MovieBlock :=
  ⟨some "Quiet", none, ["D", "2024,Drama,1h 45m", "T"], ["No times listed"]⟩

def c10Movie : Movie :=
  { date := "Saturday, June 15 2024", title := "Quiet", format := none,
    director := "D", year := "2024", genre := "Drama", runtime := "1h 45m",
    theater := "T", showtimes := ["Unknown Showtimes"] }

def c9Movie : Movie :=
  { date := "Saturday, June 15 2024", title := "M", format := none,
    director := "D", year := "2024", genre := "Drama", runtime := "1h 45m",
    theater := "T", showtimes := ["19:30"] }

def c6Movie : Movie :=
  { date := "Saturday, June 15 2024", title := "C6 Movie", format := none,
    director := "D", year := "2024", genre := "Drama", runtime := "1h 45m",
    theater := "T", showtimes := ["7:30 PM"] }

def canonical (dt : DT) : Prop :=
  1 ≤ dt.month ∧ dt.month ≤ 12 ∧ 1 ≤ dt.day ∧ dt.day ≤ dim dt.year dt.month ∧
  0 ≤ dt.hour ∧ dt.hour ≤ 23 ∧ 0 ≤ dt.minute ∧ dt.minute ≤ 59 ∧
  0 ≤ dt.second ∧ dt.second ≤ 59

def c1BadMovie : Movie :=
  { date := "Saturday, June 15 2024", title := "", format := none,
    director := "D", year := "2024", genre := "Drama", runtime := "1h 45m",
    theater := "T1", showtimes := ["7:30 PM"] }

def c1GoodMovie : Movie :=
  { date := "Saturday, June 15 2024", title := "C1 Movie", format := none,
    director := "D", year := "2024", genre := "Drama", runtime := "1h 45m",
    theater := "T1", showtimes := ["7:30 PM"] }

def c1Run1 : RunAcc :=
  { state := [{ id := "gen0", summary := "C1 Movie",
                startDT := some "2024-06-15T23:30:00Z",
                endDT := some "2024-06-16T01:15:00Z", location := "T1",
                description := "None\nDirector: D\n2024, Drama, 1h 45m\nTheater: T1" }],
    newIds := ["gen0"], insCalls := 1, insertedIds := ["gen0"] }

def c1Run2 : RunAcc :=
  { state := c1Run1.state, newIds := ["gen0"], insCalls := 0, insertedIds := [] }

def c2BadMovie : Movie :=
  { date := "Saturday, June 15 2024", title := " ", format := none,
    director := "D", year := "2024", genre := "Drama", runtime := "1h 45m",
    theater := "T2", showtimes := ["7:30 PM"] }

def c2GoodMovie : Movie :=
  { date := "Saturday, June 15 2024", title := "C2 Movie", format := none,
    director := "D", year := "2024", genre := "Drama", runtime := "1h 45m",
    theater := "T2", showtimes := ["7:30 PM"] }

def c2Dict : EvDict :=
  updD (fun _ => none) ("C2 Movie", "2024-06-15T23:30:00Z") "gen0"

theorem delOne_spec (o : String → Nat → Bool) (eid : String) :
    delOne o eid =
      (!(o eid 0 && o eid 1 && o eid 2),
       (if o eid 0 = false then 1 else if o eid 1 = false then 2 else 3),
       (if o eid 0 = false then ([] : List Nat) else if o eid 1 = false then [2]
        else if o eid 2 = false then [2, 4] else [2, 4, 8])) := by
  cases h0 : o eid 0 <;> cases h1 : o eid 1 <;> cases h2 : o eid 2 <;>
    simp [delOne, delAttempt, h0, h1, h2]

theorem purgePage_spec (o : String → Nat → Bool) (pg : List String) (acc : PurgeResult) :
    purgePage o pg acc =
      ⟨acc.deleted ++ pg.filter (fun e => (delOne o e).1),
       acc.trace ++ pg.map (fun e => (e, (delOne o e).2.1, (delOne o e).2.2))⟩ := by
  induction pg generalizing acc with
  | nil => simp [purgePage]
  | cons e rest ih =>
    unfold purgePage at ih ⊢
    rw [List.foldl_cons, ih]
    cases hd : (delOne o e).1 <;> simp [List.filter_cons, hd]

theorem delete_events_single (o : String → Nat → Bool) (pg : List String) :
    delete_events (fun _ => false) [pg] o = .ok (purgePage o pg ⟨[], []⟩) := by
  cases h : pg with
  | nil => simp [delete_events, purgeLoop, purgePage]
  | cons a rest => simp [delete_events, purgeLoop, h]

theorem delete_events_listfail (pages : List (List String)) (o : String → Nat → Bool) :
    delete_events (fun _ => true) pages o = .ok ⟨[], []⟩ := by
  cases pages <;> simp [delete_events, purgeLoop]

/-- C3: for every event of a (single-page, list-call-successful) purge the
delete retry is bounded at exactly 3 attempts with doubling backoff delays
2, 4, 8; an event whose delete fails twice and succeeds on the third
attempt is deleted exactly once with no error escalated to the caller
(the call returns `.ok`), and an event failing all three attempts is not
deleted while the purge proceeds to every other event. -/
theorem claim_c3_delete_retry (o : String → Nat → Bool) (pg : List String) :
    ∃ res, delete_events (fun _ => false) [pg] o = .ok res ∧
      res.deleted = pg.filter (fun e => !(o e 0 && o e 1 && o e 2)) ∧
      res.trace = pg.map (fun e => (e,
        (if o e 0 = false then 1 else if o e 1 = false then 2 else 3),
        (if o e 0 = false then ([] : List Nat) else if o e 1 = false then [2]
         else if o e 2 = false then [2, 4] else [2, 4, 8]))) ∧
      (∀ t ∈ res.trace, t.2.1 ≤ 3) ∧
      (∀ e ∈ pg, pg.Nodup → o e 0 = true → o e 1 = true → o e 2 = false →
        res.deleted.count e = 1) ∧
      (∀ e ∈ pg, o e 0 = true → o e 1 = true → o e 2 = true → e ∉ res.deleted) := by
  refine ⟨purgePage o pg ⟨[], []⟩, delete_events_single o pg, ?_, ?_, ?_, ?_, ?_⟩
  · rw [purgePage_spec]
    simp only [delOne_spec, List.nil_append]
  · rw [purgePage_spec]
    simp only [delOne_spec, List.nil_append]
  · intro t ht
    rw [purgePage_spec] at ht
    simp only [delOne_spec, List.nil_append, List.mem_map] at ht
    obtain ⟨e, _, rfl⟩ := ht
    by_cases h0 : o e 0 = false <;> by_cases h1 : o e 1 = false <;> simp [h0, h1]
  · intro e he hnd h0 h1 h2
    rw [purgePage_spec]
    simp only [delOne_spec, List.nil_append]
    refine List.count_eq_one_of_mem (hnd.filter _) ?_
    simp [List.mem_filter, he, h0, h1, h2]
  · intro e he h0 h1 h2
    rw [purgePage_spec]
    simp only [delOne_spec, List.nil_append, List.mem_filter]
    simp [h0, h1, h2]

theorem claim_c3_delete_retry_witness :
    ∃ res, delete_events (fun _ => false) [c3Page] c3Oracle = .ok res ∧
      res.deleted.count "a" = 1 := by
  obtain ⟨res, h1, _, _, _, h4, _⟩ := claim_c3_delete_retry c3Oracle c3Page
  exact ⟨res, h1, h4 "a" (by decide) (by decide) (by decide) (by decide) (by decide)⟩

/-- C4: dispatcher precedence over the four flags — see-existing only
enumerates and logs then stops; else delete-future purges future events
then stops; else delete-all purges everything then stops; else reset runs
the future purge and always proceeds to extract-and-reconcile; else the
run goes directly to extract-and-reconcile. -/
theorem claim_c4_dispatcher : ∀ se df da r : Bool,
    (se = true → runActions se df da r = [.logExisting]) ∧
    (se = false → df = true → runActions se df da r = [.purgeFuture]) ∧
    (se = false → df = false → da = true → runActions se df da r = [.purgeAll]) ∧
    (se = false → df = false → da = false → r = true →
      runActions se df da r = [.purgeFuture, .sync]) ∧
    (se = false → df = false → da = false → r = false → runActions se df da r = [.sync]) := by
  intro se df da r
  cases se <;> cases df <;> cases da <;> cases r <;> simp [runActions]

theorem claim_c4_dispatcher_witness :
    runActions false false false true = [.purgeFuture, .sync] :=
  (claim_c4_dispatcher false false false true).2.2.2.1 rfl rfl rfl rfl

/-! ### Lemmas: the extractor -/

theorem scrapBlock_inv (ds : String) (b : MovieBlock) (mv : Movie)
    (h : scrapBlock ds b = some mv) :
    mv.date = ds ∧ b.bigText = some mv.title ∧
      mv.showtimes = (if ((b.pstrings.filter
          (fun t => strContains t "PM" || strContains t "AM")).map pyStripS) = [] then
          ["Unknown Showtimes"]
        else (b.pstrings.filter
          (fun t => strContains t "PM" || strContains t "AM")).map pyStripS) := by
  unfold scrapBlock at h
  cases hb : b.bigText with
  | none => rw [hb] at h; cases h
  | some t =>
    rw [hb] at h
    simp only [] at h
    split at h
    · cases h
      exact ⟨rfl, rfl, rfl⟩
    · cases h

theorem processContainer_drop (cid : String) (dateText : Option String)
    (bl1 bl2 : List MovieBlock) (b : MovieBlock)
    (hfail : ∀ ds, scrapBlock ds b = none) :
    processContainer ⟨cid, dateText, bl1 ++ b :: bl2⟩ =
      processContainer ⟨cid, dateText, bl1 ++ bl2⟩ := by
  by_cases hd : dateText.getD "Unknown Date" = "Unknown Date"
  · simp [processContainer, hd]
  · simp [processContainer, hd, List.filterMap_append, hfail]

/-- C5: a field-extraction exception inside a single showing block — a
missing title node (`AttributeError`) or a short comma-split
(`IndexError`), the exception types the extractor's handler catches — is
caught: that block alone contributes no record, and all sibling blocks
and all other date containers are processed exactly as without it. -/
theorem claim_c5_extractor_isolation (b : MovieBlock)
    (hfail : ∀ ds, scrapBlock ds b = none)
    (cs1 cs2 : List DateContainer) (cid : String) (dateText : Option String)
    (bl1 bl2 : List MovieBlock) :
    scrap_movies (cs1 ++ (⟨cid, dateText, bl1 ++ b :: bl2⟩ : DateContainer) :: cs2) =
      scrap_movies (cs1 ++ (⟨cid, dateText, bl1 ++ bl2⟩ : DateContainer) :: cs2) := by
  unfold scrap_movies
  rw [List.flatMap_append, List.flatMap_append, List.flatMap_cons, List.flatMap_cons,
    processContainer_drop cid dateText bl1 bl2 b hfail]

theorem claim_c5_extractor_isolation_witness :
    scrap_movies [(⟨"2024-06-15", some "Saturday, June 15",
        [c5FailBlock, c5GoodBlock]⟩ : DateContainer)] =
      scrap_movies [(⟨"2024-06-15", some "Saturday, June 15",
        [c5GoodBlock]⟩ : DateContainer)] := by
  have h := claim_c5_extractor_isolation c5FailBlock (fun ds => rfl)
    [] [] "2024-06-15" (some "Saturday, June 15") [] [c5GoodBlock]
  simpa using h

theorem string_append_space_ne (a b : String) : a ++ " " ++ b ≠ "" := by
  intro h
  have hd := congrArg String.data h
  simp [String.data_append] at hd

/-- C7 counterexample: a showing block whose title node exists but has
empty stripped text is emitted with an empty title, refuting the claim
that every appended record has a non-empty title. -/
theorem claim_c7_counterexample :
    (scrap_movies [(⟨"2024-06-15", some "Saturday, June 15",
        [(⟨some "", none, ["D", "2024,Drama,1h 45m", "T"], []⟩ : MovieBlock)]⟩ :
      DateContainer)]).map Movie.title = [""] := rfl

/-- C7 (amended): every record emitted by the extractor has a non-empty
date field (the composed date string always contains the separating
space), and its title is the stripped text of a title node present in its
block — blocks without a title node are dropped — but that text, and so
the emitted title, may be the empty string. -/
theorem claim_c7_emission_invariant (cs : List DateContainer) (mv : Movie)
    (h : mv ∈ scrap_movies cs) :
    mv.date ≠ "" ∧ ∃ c ∈ cs, ∃ b ∈ c.blocks, b.bigText = some mv.title := by
  unfold scrap_movies at h
  rw [List.mem_flatMap] at h
  obtain ⟨c, hc, hmv⟩ := h
  unfold processContainer at hmv
  by_cases hd : c.dateText.getD "Unknown Date" = "Unknown Date"
  · simp [hd] at hmv
  · simp only [hd, if_false] at hmv
    rw [List.mem_filterMap] at hmv
    obtain ⟨b, hb, hsb⟩ := hmv
    obtain ⟨hdate, htitle, _⟩ := scrapBlock_inv _ _ _ hsb
    refine ⟨?_, c, hc, b, hb, htitle⟩
    rw [hdate]
    exact string_append_space_ne _ _

theorem claim_c7_emission_invariant_witness :
    c7WMovie.date ≠ "" ∧
    ∃ c ∈ [c7Container], ∃ b ∈ c.blocks, b.bigText = some c7WMovie.title :=
  claim_c7_emission_invariant [c7Container] c7WMovie
    (by rw [show scrap_movies [c7Container] = [c7WMovie] from rfl]
        exact List.mem_singleton.mpr rfl)

/-! ### Lemmas: reconciler loop structure -/

theorem processShowtime_skip (f : Nat → Bool) (d : EvDict) (mv : Movie) (s : String)
    (acc : RunAcc)
    (h : validate_showtime s = false ∨ computeTimes mv.date mv.runtime s = .ok none) :
    processShowtime f d mv s acc = .ok acc := by
  unfold processShowtime
  rcases h with h | h
  · simp [h]
  · by_cases hv : validate_showtime s = false
    · simp [hv]
    · simp [hv, h]

theorem processShowtimes_skip_all (f : Nat → Bool) (d : EvDict) (mv : Movie)
    (sts : List String) (acc : RunAcc)
    (h : ∀ s ∈ sts, validate_showtime s = false ∨
      computeTimes mv.date mv.runtime s = .ok none) :
    processShowtimes f d mv sts acc = .ok acc := by
  induction sts generalizing acc with
  | nil => rfl
  | cons s rest ih =>
    unfold processShowtimes
    rw [processShowtime_skip f d mv s acc (h s (List.mem_cons_self s rest))]
    exact ih acc (fun x hx => h x (List.mem_cons_of_mem s hx))

theorem processShowtimes_cons (f : Nat → Bool) (d : EvDict) (mv : Movie) (s : String)
    (rest : List String) (acc : RunAcc) :
    processShowtimes f d mv (s :: rest) acc =
      match processShowtime f d mv s acc with
      | .error e => .error e
      | .ok a => processShowtimes f d mv rest a := rfl

theorem processMovies_cons (f : Nat → Bool) (d : EvDict) (m : Movie)
    (rest : List Movie) (acc : RunAcc) :
    processMovies f d (m :: rest) acc =
      match processShowtimes f d m m.showtimes acc with
      | .error e => .error e
      | .ok a => processMovies f d rest a := rfl

theorem processMovies_drop_middle (f : Nat → Bool) (d : EvDict) (mv : Movie)
    (l1 l2 : List Movie) (acc : RunAcc)
    (h : ∀ a, processShowtimes f d mv mv.showtimes a = .ok a) :
    processMovies f d (l1 ++ mv :: l2) acc = processMovies f d (l1 ++ l2) acc := by
  induction l1 generalizing acc with
  | nil =>
    simp only [List.nil_append]
    rw [processMovies_cons, h acc]
  | cons m rest ih =>
    simp only [List.cons_append]
    rw [processMovies_cons, processMovies_cons]
    cases processShowtimes f d m m.showtimes acc with
    | error e => rfl
    | ok a => exact ih a

theorem update_drop_middle (f : Nat → Bool) (st : List RemoteEvent) (mv : Movie)
    (l1 l2 : List Movie)
    (h : ∀ d a, processShowtimes f d mv mv.showtimes a = .ok a) :
    update_google_calendar f st (l1 ++ mv :: l2) =
      update_google_calendar f st (l1 ++ l2) := by
  unfold update_google_calendar
  cases fetch_all_existing_events st with
  | error e => rfl
  | ok d => exact processMovies_drop_middle f d mv l1 l2 _ (h d)

theorem computeTimes_runtime_none (date rt s : String) (h : parseRuntime rt = none) :
    computeTimes date rt s = .ok none := by
  unfold computeTimes
  cases parseDateLong (date ++ " " ++ s) with
  | none => rfl
  | some dt => rw [h]

/-- C8: the runtime text `"1h 45m"` parses to a duration of exactly 105
minutes, the malformed runtime text `"??"` fails to parse, and for any
movie whose runtime fails to parse the resulting `ValueError` is caught
per showtime: that movie inserts nothing and the run over all other
movies is exactly as if it were absent — no crash, siblings unaffected. -/
theorem claim_c8_runtime (mv : Movie) (hbad : parseRuntime mv.runtime = none)
    (f : Nat → Bool) (st : List RemoteEvent) (l1 l2 : List Movie) :
    (parseRuntime "1h 45m").map (fun p => p.1 * 60 + p.2) = some 105 ∧
    parseRuntime "??" = none ∧
    update_google_calendar f st (l1 ++ mv :: l2) = update_google_calendar f st (l1 ++ l2) := by
  refine ⟨rfl, rfl, ?_⟩
  refine update_drop_middle f st mv l1 l2 (fun d a => ?_)
  exact processShowtimes_skip_all f d mv mv.showtimes a
    (fun s _ => Or.inr (computeTimes_runtime_none mv.date mv.runtime s hbad))

theorem claim_c8_runtime_witness :
    (parseRuntime "1h 45m").map (fun p => p.1 * 60 + p.2) = some 105 ∧
    parseRuntime "??" = none ∧
    update_google_calendar (fun _ => false) [] ([] ++ c8BadMovie :: []) =
      update_google_calendar (fun _ => false) [] ([] ++ []) :=
  claim_c8_runtime c8BadMovie rfl (fun _ => false) [] [] []

/-- C10: an extracted record none of whose paragraph text fragments
contains `"AM"` or `"PM"` is emitted with the single-element placeholder
showtimes list `['Unknown Showtimes']`; that placeholder fails
`validate_showtime`, so such a record triggers no datetime computation and
no insert call — reconciliation behaves exactly as if the record were
absent. -/
theorem claim_c10_placeholder (ds : String) (b : MovieBlock) (mv : Movie)
    (hok : scrapBlock ds b = some mv)
    (hnone : ∀ t ∈ b.pstrings, strContains t "PM" = false ∧ strContains t "AM" = false)
    (f : Nat → Bool) (st : List RemoteEvent) (l1 l2 : List Movie) :
    mv.showtimes = ["Unknown Showtimes"] ∧
    validate_showtime "Unknown Showtimes" = false ∧
    update_google_calendar f st (l1 ++ mv :: l2) = update_google_calendar f st (l1 ++ l2) := by
  obtain ⟨-, -, hsts⟩ := scrapBlock_inv ds b mv hok
  have hfilter : b.pstrings.filter (fun t => strContains t "PM" || strContains t "AM") = [] := by
    rw [List.filter_eq_nil_iff]
    intro t ht
    simp [(hnone t ht).1, (hnone t ht).2]
  rw [hfilter] at hsts
  simp at hsts
  refine ⟨hsts, rfl, ?_⟩
  refine update_drop_middle f st mv l1 l2 (fun d a => ?_)
  refine processShowtimes_skip_all f d mv mv.showtimes a (fun s hs => ?_)
  rw [hsts] at hs
  simp only [List.mem_singleton] at hs
  subst hs
  exact Or.inl rfl

theorem claim_c10_placeholder_witness :
    c10Movie.showtimes = ["Unknown Showtimes"] ∧
    validate_showtime "Unknown Showtimes" = false ∧
    update_google_calendar (fun _ => false) [] ([] ++ c10Movie :: []) =
      update_google_calendar (fun _ => false) [] ([] ++ []) :=
  claim_c10_placeholder "Saturday, June 15 2024" c10Block c10Movie rfl
    (by decide) (fun _ => false) [] [] []

/-! ### Lemmas: showtime validation bounds -/

theorem charDigit_bound (c : Char) (v : Nat) (h : charDigit c = some v) : v ≤ 9 := by
  unfold charDigit at h
  split at h <;> simp_all <;> omega

theorem matchTwelve_bound (cs : List Char) (v : Nat) (r : List Char)
    (h : matchTwelve cs = some (v, r)) : 1 ≤ v ∧ v ≤ 12 := by
  cases cs with
  | nil => simp [matchTwelve] at h
  | cons c1 rest1 =>
    cases hd1 : charDigit c1 with
    | none => simp [matchTwelve, hd1] at h
    | some d1 =>
      have hb1 := charDigit_bound c1 d1 hd1
      cases rest1 with
      | nil =>
        simp only [matchTwelve, hd1] at h
        split_ifs at h <;>
          first
          | (simp only [Option.some.injEq, Prod.mk.injEq] at h; omega)
          | simp at h
      | cons c2 rest2 =>
        cases hd2 : charDigit c2 with
        | none =>
          simp only [matchTwelve, hd1, hd2] at h
          split_ifs at h <;>
            first
            | (simp only [Option.some.injEq, Prod.mk.injEq] at h; omega)
            | simp at h
        | some d2 =>
          have hb2 := charDigit_bound c2 d2 hd2
          simp only [matchTwelve, hd1, hd2] at h
          split_ifs at h <;>
            first
            | (simp only [Option.some.injEq, Prod.mk.injEq] at h; omega)
            | simp at h

theorem matchMin_bound (cs : List Char) (v : Nat) (r : List Char)
    (h : matchMin cs = some (v, r)) : v ≤ 59 := by
  cases cs with
  | nil => simp [matchMin] at h
  | cons c1 rest1 =>
    cases hd1 : charDigit c1 with
    | none => simp [matchMin, hd1] at h
    | some d1 =>
      have hb1 := charDigit_bound c1 d1 hd1
      cases rest1 with
      | nil =>
        simp only [matchMin, hd1, Option.some.injEq, Prod.mk.injEq] at h
        omega
      | cons c2 rest2 =>
        cases hd2 : charDigit c2 with
        | none =>
          simp only [matchMin, hd1, hd2, Option.some.injEq, Prod.mk.injEq] at h
          omega
        | some d2 =>
          have hb2 := charDigit_bound c2 d2 hd2
          simp only [matchMin, hd1, hd2] at h
          split_ifs at h <;>
            first
            | (simp only [Option.some.injEq, Prod.mk.injEq] at h; omega)
            | simp at h

theorem matchNameCI_val (alts : List (List Char × Nat)) (cs : List Char) (v : Nat)
    (r : List Char) (h : matchNameCI alts cs = some (v, r)) : ∃ w, (w, v) ∈ alts := by
  induction alts with
  | nil => simp [matchNameCI] at h
  | cons p rest ih =>
    obtain ⟨w, val⟩ := p
    simp only [matchNameCI] at h
    cases hs : stripWordCI w cs with
    | some cs' =>
      rw [hs] at h
      simp only [Option.some.injEq, Prod.mk.injEq] at h
      exact ⟨w, by simp [h.1]⟩
    | none =>
      rw [hs] at h
      obtain ⟨w', hw⟩ := ih h
      exact ⟨w', List.mem_cons_of_mem _ hw⟩

theorem parseShowtime_bounds (x : String) (h12 mi ap : Nat)
    (h : parseShowtime x = some (h12, mi, ap)) :
    1 ≤ h12 ∧ h12 ≤ 12 ∧ mi ≤ 59 ∧ ap ≤ 1 := by
  unfold parseShowtime at h
  cases ht : matchTwelve x.data with
  | none => simp only [ht] at h; cases h
  | some p =>
    obtain ⟨v1, r1⟩ := p
    simp only [ht] at h
    have hb1 := matchTwelve_bound _ _ _ ht
    cases hc : expectCh ':' r1 with
    | none => simp only [hc] at h; cases h
    | some r2 =>
      simp only [hc] at h
      cases hm : matchMin r2 with
      | none => simp only [hm] at h; cases h
      | some p2 =>
        obtain ⟨v2, r3⟩ := p2
        simp only [hm] at h
        have hb2 := matchMin_bound _ _ _ hm
        cases hw : matchWs r3 with
        | none => simp only [hw] at h; cases h
        | some r4 =>
          simp only [hw] at h
          cases hp : matchAmPm r4 with
          | none => simp only [hp] at h; cases h
          | some p3 =>
            obtain ⟨v3, r5⟩ := p3
            simp only [hp] at h
            have hb3 : v3 ≤ 1 := by
              unfold matchAmPm at hp
              obtain ⟨w, hw'⟩ := matchNameCI_val _ _ _ _ hp
              simp at hw'
              rcases hw' with ⟨-, h0⟩ | ⟨-, h1⟩ <;> omega
            split at h
            · simp only [Option.some.injEq, Prod.mk.injEq] at h
              obtain ⟨rfl, rfl, rfl⟩ := h
              exact ⟨hb1.1, hb1.2, hb2, hb3⟩
            · cases h

theorem processShowtimes_drop_invalid (f : Nat → Bool) (d : EvDict) (mv : Movie)
    (s : String) (w1 w2 : List String) (acc : RunAcc)
    (hinv : validate_showtime s = false) :
    processShowtimes f d mv (w1 ++ s :: w2) acc = processShowtimes f d mv (w1 ++ w2) acc := by
  induction w1 generalizing acc with
  | nil =>
    simp only [List.nil_append]
    rw [processShowtimes_cons, processShowtime_skip f d mv s acc (Or.inl hinv)]
  | cons x rest ih =>
    simp only [List.cons_append]
    rw [processShowtimes_cons, processShowtimes_cons]
    cases processShowtime f d mv x acc with
    | error e => rfl
    | ok a => exact ih a

theorem processShowtimes_showtimes_irrel (f : Nat → Bool) (d : EvDict) (mv : Movie)
    (X Y L : List String) (acc : RunAcc) :
    processShowtimes f d { mv with showtimes := X } L acc =
      processShowtimes f d { mv with showtimes := Y } L acc := by
  induction L generalizing acc with
  | nil => rfl
  | cons s rest ih =>
    rw [processShowtimes_cons, processShowtimes_cons]
    have hstep : processShowtime f d { mv with showtimes := X } s acc =
        processShowtime f d { mv with showtimes := Y } s acc := rfl
    rw [hstep]
    cases processShowtime f d { mv with showtimes := Y } s acc with
    | error e => rfl
    | ok a => exact ih a

theorem processMovies_congr_middle (f : Nat → Bool) (d : EvDict) (l1 l2 : List Movie)
    (acc : RunAcc) (mvA mvB : Movie)
    (h : ∀ a, processShowtimes f d mvA mvA.showtimes a = processShowtimes f d mvB mvB.showtimes a) :
    processMovies f d (l1 ++ mvA :: l2) acc = processMovies f d (l1 ++ mvB :: l2) acc := by
  induction l1 generalizing acc with
  | nil =>
    simp only [List.nil_append]
    rw [processMovies_cons, processMovies_cons, h acc]
  | cons m rest ih =>
    simp only [List.cons_append]
    rw [processMovies_cons, processMovies_cons]
    cases processShowtimes f d m m.showtimes acc with
    | error e => rfl
    | ok a => exact ih a

/-- C9: `validate_showtime` validates `"7:30 PM"` and rejects `"19:30"`;
whenever it accepts, the parsed value is a 12-hour clock time with an
AM/PM marker (hour 1..12, minute 0..59), and every well-formed 12-hour
clock string of that shape is accepted; it is a total Boolean filter, and
a showtime that validates false is skipped before any datetime
computation or insert call — the run is exactly as if that showtime were
absent from the record. -/
theorem claim_c9_validate_showtime (s : String) (hinv : validate_showtime s = false)
    (mv : Movie) (w1 w2 : List String) (f : Nat → Bool) (st : List RemoteEvent)
    (l1 l2 : List Movie) :
    validate_showtime "7:30 PM" = true ∧
    validate_showtime "19:30" = false ∧
    (∀ x h12 mi ap, parseShowtime x = some (h12, mi, ap) →
      1 ≤ h12 ∧ h12 ≤ 12 ∧ mi ≤ 59 ∧ ap ≤ 1) ∧
    (∀ h12 : Nat, h12 < 12 → ∀ mi : Nat, mi < 60 →
      validate_showtime ⟨natChars (h12 + 1) ++ ':' :: pad2 (mi : Int) ++ [' ', 'P', 'M']⟩ = true ∧
      validate_showtime ⟨natChars (h12 + 1) ++ ':' :: pad2 (mi : Int) ++ [' ', 'A', 'M']⟩ = true) ∧
    update_google_calendar f st (l1 ++ { mv with showtimes := w1 ++ s :: w2 } :: l2) =
      update_google_calendar f st (l1 ++ { mv with showtimes := w1 ++ w2 } :: l2) := by
  refine ⟨rfl, rfl, fun x h12 mi ap h => parseShowtime_bounds x h12 mi ap h, by decide, ?_⟩
  unfold update_google_calendar
  cases fetch_all_existing_events st with
  | error e => rfl
  | ok d =>
    refine processMovies_congr_middle f d l1 l2 _ _ _ (fun a => ?_)
    show processShowtimes f d { mv with showtimes := w1 ++ s :: w2 } (w1 ++ s :: w2) a =
      processShowtimes f d { mv with showtimes := w1 ++ w2 } (w1 ++ w2) a
    rw [processShowtimes_drop_invalid f d { mv with showtimes := w1 ++ s :: w2 } s w1 w2 a hinv]
    exact processShowtimes_showtimes_irrel f d mv (w1 ++ s :: w2) (w1 ++ w2) (w1 ++ w2) a

theorem claim_c9_validate_showtime_witness :
    validate_showtime "7:30 PM" = true ∧
    validate_showtime "19:30" = false ∧
    (∀ x h12 mi ap, parseShowtime x = some (h12, mi, ap) →
      1 ≤ h12 ∧ h12 ≤ 12 ∧ mi ≤ 59 ∧ ap ≤ 1) ∧
    (∀ h12 : Nat, h12 < 12 → ∀ mi : Nat, mi < 60 →
      validate_showtime ⟨natChars (h12 + 1) ++ ':' :: pad2 (mi : Int) ++ [' ', 'P', 'M']⟩ = true ∧
      validate_showtime ⟨natChars (h12 + 1) ++ ':' :: pad2 (mi : Int) ++ [' ', 'A', 'M']⟩ = true) ∧
    update_google_calendar (fun _ => false) []
        ([] ++ { c9Movie with showtimes := [] ++ "19:30" :: [] } :: []) =
      update_google_calendar (fun _ => false) []
        ([] ++ { c9Movie with showtimes := [] ++ [] } :: []) :=
  claim_c9_validate_showtime "19:30" rfl c9Movie [] [] (fun _ => false) [] [] []

/-! ### Lemmas: insert failures escape the reconciler -/

theorem processShowtime_allfail (d : EvDict) (mv : Movie) (s : String) (acc : RunAcc) :
    processShowtime (fun _ => true) d mv s acc = .error .httpError ∨
    (processShowtime (fun _ => true) d mv s acc = processShowtime (fun _ => false) d mv s acc ∧
     ∀ out, processShowtime (fun _ => false) d mv s acc = .ok out →
       out.state = acc.state ∧ out.insCalls = acc.insCalls ∧
         out.insertedIds = acc.insertedIds) := by
  by_cases hv : validate_showtime s = false
  · rw [processShowtime_skip _ d mv s acc (Or.inl hv),
      processShowtime_skip _ d mv s acc (Or.inl hv)]
    exact Or.inr ⟨rfl, fun out h => by cases h; exact ⟨rfl, rfl, rfl⟩⟩
  · cases hct : computeTimes mv.date mv.runtime s with
    | error e =>
      have hL : ∀ f : Nat → Bool, processShowtime f d mv s acc = .error e := by
        intro f
        unfold processShowtime
        rw [if_neg hv, hct]
      rw [hL, hL]
      exact Or.inr ⟨rfl, fun out h => by cases h⟩
    | ok o =>
      cases o with
      | none =>
        have hL : ∀ f : Nat → Bool, processShowtime f d mv s acc = .ok acc := by
          intro f
          unfold processShowtime
          rw [if_neg hv, hct]
        rw [hL, hL]
        exact Or.inr ⟨rfl, fun out h => by cases h; exact ⟨rfl, rfl, rfl⟩⟩
      | some p =>
        obtain ⟨stStr, enStr⟩ := p
        cases hk : d (pyStripS mv.title, stStr) with
        | some eid =>
          have hL : ∀ f : Nat → Bool, processShowtime f d mv s acc =
              .ok { acc with newIds := setAdd acc.newIds eid } := by
            intro f
            unfold processShowtime
            rw [if_neg hv, hct]
            simp only [hk]
          rw [hL, hL]
          exact Or.inr ⟨rfl, fun out h => by cases h; exact ⟨rfl, rfl, rfl⟩⟩
        | none =>
          left
          unfold processShowtime
          rw [if_neg hv, hct]
          simp only [hk]
          rfl

theorem processShowtimes_allfail (d : EvDict) (mv : Movie) (sts : List String) (acc : RunAcc) :
    processShowtimes (fun _ => true) d mv sts acc = .error .httpError ∨
    (processShowtimes (fun _ => true) d mv sts acc =
        processShowtimes (fun _ => false) d mv sts acc ∧
     ∀ out, processShowtimes (fun _ => false) d mv sts acc = .ok out →
       out.state = acc.state ∧ out.insCalls = acc.insCalls ∧
         out.insertedIds = acc.insertedIds) := by
  induction sts generalizing acc with
  | nil => exact Or.inr ⟨rfl, fun out h => by cases h; exact ⟨rfl, rfl, rfl⟩⟩
  | cons s rest ih =>
    rw [processShowtimes_cons, processShowtimes_cons]
    rcases processShowtime_allfail d mv s acc with h | ⟨heq, hinv⟩
    · rw [h]
      exact Or.inl rfl
    · rw [heq]
      cases hstep : processShowtime (fun _ => false) d mv s acc with
      | error e => exact Or.inr ⟨rfl, fun out h => nomatch h⟩
      | ok a =>
        obtain ⟨ha1, ha2, ha3⟩ := hinv a hstep
        rcases ih a with h2 | ⟨heq2, hinv2⟩
        · exact Or.inl h2
        · refine Or.inr ⟨heq2, fun out hout => ?_⟩
          obtain ⟨h1, h2', h3⟩ := hinv2 out hout
          exact ⟨h1.trans ha1, h2'.trans ha2, h3.trans ha3⟩

theorem processMovies_allfail (d : EvDict) (movies : List Movie) (acc : RunAcc) :
    processMovies (fun _ => true) d movies acc = .error .httpError ∨
    (processMovies (fun _ => true) d movies acc =
        processMovies (fun _ => false) d movies acc ∧
     ∀ out, processMovies (fun _ => false) d movies acc = .ok out →
       out.state = acc.state ∧ out.insCalls = acc.insCalls ∧
         out.insertedIds = acc.insertedIds) := by
  induction movies generalizing acc with
  | nil => exact Or.inr ⟨rfl, fun out h => by cases h; exact ⟨rfl, rfl, rfl⟩⟩
  | cons mv rest ih =>
    rw [processMovies_cons, processMovies_cons]
    rcases processShowtimes_allfail d mv mv.showtimes acc with h | ⟨heq, hinv⟩
    · rw [h]
      exact Or.inl rfl
    · rw [heq]
      cases hstep : processShowtimes (fun _ => false) d mv mv.showtimes acc with
      | error e => exact Or.inr ⟨rfl, fun out h => nomatch h⟩
      | ok a =>
        obtain ⟨ha1, ha2, ha3⟩ := hinv a hstep
        rcases ih a with h2 | ⟨heq2, hinv2⟩
        · exact Or.inl h2
        · refine Or.inr ⟨heq2, fun out hout => ?_⟩
          obtain ⟨h1, h2', h3⟩ := hinv2 out hout
          exact ⟨h1.trans ha1, h2'.trans ha2, h3.trans ha3⟩

/-- C6 counterexample: on an empty sink, reconciling one valid movie whose
insert call raises `HttpError` makes `update_google_calendar` itself end
in that error — the sink error of the insert call escapes the reconciler
instead of being logged and handled like the per-showtime errors (only
`ValueError` is caught). -/
theorem claim_c6_counterexample :
    update_google_calendar (fun _ => true) [] [c6Movie] = .error .httpError := rfl

/-- C6 (amended): an `HttpError` of the insert call is not caught inside
`update_google_calendar` (the per-showtime handler catches only
`ValueError`): whenever a run would perform at least one insert, the same
run with failing inserts ends in the `HttpError`; and a failure of the
top-level list call inside a purge aborts the whole purge — caught once
at the outer loop, not retried — with no deletions performed and nothing
escaping `delete_events`. -/
theorem claim_c6_error_routing (st : List RemoteEvent) (movies : List Movie) (out : RunAcc)
    (hok : update_google_calendar (fun _ => false) st movies = .ok out)
    (hins : out.insertedIds ≠ []) :
    update_google_calendar (fun _ => true) st movies = .error .httpError ∧
    (∀ (pages : List (List String)) (o : String → Nat → Bool),
      delete_events (fun _ => true) pages o = .ok ⟨[], []⟩) := by
  constructor
  · unfold update_google_calendar at hok ⊢
    cases hf : fetch_all_existing_events st with
    | error e => rw [hf] at hok; cases hok
    | ok d =>
      rw [hf] at hok
      rcases processMovies_allfail d movies ⟨st, [], 0, []⟩ with h | ⟨heq, hinv⟩
      · exact h
      · exact absurd (hinv out hok).2.2 hins
  · exact fun pages o => delete_events_listfail pages o

theorem claim_c6_error_routing_witness :
    update_google_calendar (fun _ => true) [] [c6Movie] = .error .httpError ∧
    (∀ (pages : List (List String)) (o : String → Nat → Bool),
      delete_events (fun _ => true) pages o = .ok ⟨[], []⟩) :=
  claim_c6_error_routing [] [c6Movie]
    ⟨[⟨"gen0", "C6 Movie", some "2024-06-15T23:30:00Z", some "2024-06-16T01:15:00Z",
       "T", "None\nDirector: D\n2024, Drama, 1h 45m\nTheater: T"⟩],
     ["gen0"], 1, ["gen0"]⟩
    rfl (by simp)

/-! ### Lemmas: formatting and re-parsing of the stored UTC start string -/

theorem dim_bounds (y m : Int) : 28 ≤ dim y m ∧ dim y m ≤ 31 := by
  unfold dim
  split_ifs <;> omega

theorem charDigit_dchN (n : Nat) (h : n < 10) : charDigit (dchN n) = some n := by
  interval_cases n <;> rfl

theorem wsChar_dchN (n : Nat) : wsChar (dchN n) = false := by
  unfold dchN
  split <;> rfl

theorem pad2_eq (v : Int) (h0 : 0 ≤ v) (h1 : v < 100) :
    pad2 v = [dchN (v.toNat / 10), dchN (v.toNat % 10)] := by
  unfold pad2
  rw [if_neg (by omega), if_pos h1]

theorem pad4_eq (v : Int) (h0 : 0 ≤ v) (h1 : v < 10000) :
    pad4 v = [dchN (v.toNat / 1000), dchN (v.toNat / 100 % 10),
      dchN (v.toNat / 10 % 10), dchN (v.toNat % 10)] := by
  unfold pad4
  rw [if_neg (by omega), if_pos h1]

theorem matchYear4_pad4 (y : Int) (h0 : 0 ≤ y) (h1 : y ≤ 9999) (r : List Char) :
    matchYear4 (pad4 y ++ r) = some (y.toNat, r) := by
  rw [pad4_eq y h0 (by omega)]
  have hy : y.toNat ≤ 9999 := by omega
  simp only [List.cons_append, List.nil_append, matchYear4,
    charDigit_dchN (y.toNat / 1000) (by omega),
    charDigit_dchN (y.toNat / 100 % 10) (by omega),
    charDigit_dchN (y.toNat / 10 % 10) (by omega),
    charDigit_dchN (y.toNat % 10) (by omega)]
  have : 1000 * (y.toNat / 1000) + 100 * (y.toNat / 100 % 10) +
      10 * (y.toNat / 10 % 10) + y.toNat % 10 = y.toNat := by omega
  rw [this]

theorem matchTwelve_pad2 (m : Int) (hl : 1 ≤ m) (hr : m ≤ 12) (r : List Char) :
    matchTwelve (pad2 m ++ r) = some (m.toNat, r) := by
  rw [pad2_eq m (by omega) (by omega)]
  have hl' : 1 ≤ m.toNat := by omega
  have hr' : m.toNat ≤ 12 := by omega
  generalize m.toNat = v at hl' hr' ⊢
  interval_cases v <;> rfl

theorem matchDay_pad2 (d : Int) (hl : 1 ≤ d) (hr : d ≤ 31) (r : List Char) :
    matchDay (pad2 d ++ r) = some (d.toNat, r) := by
  rw [pad2_eq d (by omega) (by omega)]
  have hl' : 1 ≤ d.toNat := by omega
  have hr' : d.toNat ≤ 31 := by omega
  generalize d.toNat = v at hl' hr' ⊢
  interval_cases v <;> rfl

theorem matchHour_pad2 (h : Int) (hl : 0 ≤ h) (hr : h ≤ 23) (r : List Char) :
    matchHour (pad2 h ++ r) = some (h.toNat, r) := by
  rw [pad2_eq h (by omega) (by omega)]
  have hr' : h.toNat ≤ 23 := by omega
  generalize h.toNat = v at hr' ⊢
  interval_cases v <;> rfl

theorem matchMin_pad2 (m : Int) (hl : 0 ≤ m) (hr : m ≤ 59) (r : List Char) :
    matchMin (pad2 m ++ r) = some (m.toNat, r) := by
  rw [pad2_eq m (by omega) (by omega)]
  have hr' : m.toNat ≤ 59 := by omega
  generalize m.toNat = v at hr' ⊢
  interval_cases v <;> rfl

theorem matchSec_pad2 (s : Int) (hl : 0 ≤ s) (hr : s ≤ 59) (r : List Char) :
    matchSec (pad2 s ++ r) = some (s.toNat, r) := by
  rw [pad2_eq s (by omega) (by omega)]
  have hr' : s.toNat ≤ 59 := by omega
  generalize s.toNat = v at hr' ⊢
  interval_cases v <;> rfl

theorem expectCh_eq (c : Char) (r : List Char) : expectCh c (c :: r) = some r := by
  simp [expectCh]

theorem expectChCI_T (r : List Char) : expectChCI 'T' ('T' :: r) = some r := rfl

theorem matchZoff_Z (r : List Char) : matchZoff ('Z' :: r) = some (0, r) := rfl

theorem fmtUTC_data (dt : DT) :
    (fmtUTC dt).data = pad4 dt.year ++ '-' :: pad2 dt.month ++ '-' :: pad2 dt.day ++
      'T' :: pad2 dt.hour ++ ':' :: pad2 dt.minute ++ ':' :: pad2 dt.second ++ ['Z'] := rfl

theorem parseIsoZ_fmtUTC (dt : DT) (hc : canonical dt) (hy1 : 1 ≤ dt.year)
    (hy2 : dt.year ≤ 9999) : parseIsoZ (fmtUTC dt) = some (dt, 0) := by
  obtain ⟨hm1, hm2, hd1, hd2, hh1, hh2, hmi1, hmi2, hs1, hs2⟩ := hc
  have hd31 : dt.day ≤ 31 := le_trans hd2 (dim_bounds dt.year dt.month).2
  unfold parseIsoZ
  simp only [fmtUTC_data, List.cons_append, List.append_assoc,
    matchYear4_pad4 dt.year (by omega) hy2, expectCh_eq,
    matchTwelve_pad2 dt.month hm1 hm2, matchDay_pad2 dt.day hd1 hd31, expectChCI_T,
    matchHour_pad2 dt.hour hh1 hh2, matchMin_pad2 dt.minute hmi1 hmi2,
    matchSec_pad2 dt.second hs1 hs2, matchZoff_Z]
  rw [Int.toNat_of_nonneg (show (0:Int) ≤ dt.year by omega),
    Int.toNat_of_nonneg (show (0:Int) ≤ dt.month by omega),
    Int.toNat_of_nonneg (show (0:Int) ≤ dt.day by omega),
    Int.toNat_of_nonneg (show (0:Int) ≤ dt.hour by omega),
    Int.toNat_of_nonneg (show (0:Int) ≤ dt.minute by omega),
    Int.toNat_of_nonneg (show (0:Int) ≤ dt.second by omega)]
  rw [if_pos ⟨trivial, by omega, by omega, hd2, by omega⟩]

theorem normDate_fix (fuel : Nat) (y m d : Int) (hd1 : 1 ≤ d) (hd2 : d ≤ dim y m) :
    normDate fuel y m d = (y, m, d) := by
  cases fuel with
  | zero => rfl
  | succ f =>
    unfold normDate
    rw [if_neg (by omega), if_neg (by omega)]

theorem normDate_carry (fuel : Nat) (y m : Int) (hm1 : 1 ≤ m) (hm2 : m ≤ 12)
    (hf : 2 ≤ fuel) :
    normDate fuel y m (dim y m + 1) =
      (if m = 12 then y + 1 else y, if m = 12 then 1 else m + 1, 1) := by
  match fuel, hf with
  | f + 2, _ =>
    have h28 := dim_bounds y m
    unfold normDate
    rw [if_neg (by omega), if_pos (by omega)]
    have harg : dim y m + 1 - dim y m = 1 := by omega
    rw [harg]
    have h28' := dim_bounds (if m = 12 then y + 1 else y) (if m = 12 then 1 else m + 1)
    rw [normDate_fix (f + 1) _ _ 1 (by omega) (by omega)]

theorem pyAddSeconds_small (dt : DT) (delta : Int) (hc : canonical dt) (h0 : 0 ≤ delta)
    (h1 : delta ≤ 18000) :
    canonical (pyAddSeconds dt delta) ∧ dt.year ≤ (pyAddSeconds dt delta).year ∧
      (pyAddSeconds dt delta).year ≤ dt.year + 1 := by
  obtain ⟨hm1, hm2, hd1, hd2, hh1, hh2, hmi1, hmi2, hs1, hs2⟩ := hc
  unfold pyAddSeconds canonical
  dsimp only
  have hshift : (dt.hour * 3600 + dt.minute * 60 + dt.second + delta) / 86400 = 0 ∨
      (dt.hour * 3600 + dt.minute * 60 + dt.second + delta) / 86400 = 1 := by omega
  have htime :
      0 ≤ (dt.hour * 3600 + dt.minute * 60 + dt.second + delta) % 86400 / 3600 ∧
      (dt.hour * 3600 + dt.minute * 60 + dt.second + delta) % 86400 / 3600 ≤ 23 ∧
      0 ≤ (dt.hour * 3600 + dt.minute * 60 + dt.second + delta) % 86400 % 3600 / 60 ∧
      (dt.hour * 3600 + dt.minute * 60 + dt.second + delta) % 86400 % 3600 / 60 ≤ 59 ∧
      0 ≤ (dt.hour * 3600 + dt.minute * 60 + dt.second + delta) % 86400 % 60 ∧
      (dt.hour * 3600 + dt.minute * 60 + dt.second + delta) % 86400 % 60 ≤ 59 := by
    omega
  rcases hshift with hs | hs
  · rw [hs]
    have hday : dt.day + 0 = dt.day := by omega
    rw [hday, normDate_fix _ dt.year dt.month dt.day hd1 hd2]
    dsimp only
    refine ⟨⟨hm1, hm2, hd1, hd2, htime.1, htime.2.1, htime.2.2.1, htime.2.2.2.1,
      htime.2.2.2.2.1, htime.2.2.2.2.2⟩, by omega, by omega⟩
  · rw [hs]
    by_cases hcar : dt.day + 1 ≤ dim dt.year dt.month
    · rw [normDate_fix _ dt.year dt.month _ (by omega) hcar]
      dsimp only
      refine ⟨⟨hm1, hm2, by omega, hcar, htime.1, htime.2.1, htime.2.2.1, htime.2.2.2.1,
        htime.2.2.2.2.1, htime.2.2.2.2.2⟩, by omega, by omega⟩
    · have hde : dt.day + 1 = dim dt.year dt.month + 1 := by omega
      rw [hde, normDate_carry _ dt.year dt.month hm1 hm2 (by omega)]
      have h28 := dim_bounds (if dt.month = 12 then dt.year + 1 else dt.year)
        (if dt.month = 12 then 1 else dt.month + 1)
      by_cases h12 : dt.month = 12
      · simp only [h12, eq_self_iff_true, if_true] at h28 ⊢
        exact ⟨⟨by omega, by omega, by omega, by omega, htime.1, htime.2.1, htime.2.2.1,
          htime.2.2.2.1, htime.2.2.2.2.1, htime.2.2.2.2.2⟩, by omega, by omega⟩
      · simp only [if_neg h12] at h28 ⊢
        exact ⟨⟨by omega, by omega, by omega, by omega, htime.1, htime.2.1, htime.2.2.1,
          htime.2.2.2.1, htime.2.2.2.2.1, htime.2.2.2.2.2⟩, by omega, by omega⟩

theorem pyAddSeconds_zero (dt : DT) (hc : canonical dt) : pyAddSeconds dt 0 = dt := by
  obtain ⟨hm1, hm2, hd1, hd2, hh1, hh2, hmi1, hmi2, hs1, hs2⟩ := hc
  unfold pyAddSeconds
  dsimp only
  have h1 : (dt.hour * 3600 + dt.minute * 60 + dt.second + 0) / 86400 = 0 := by omega
  rw [h1]
  have hday : dt.day + 0 = dt.day := by omega
  rw [hday, normDate_fix _ dt.year dt.month dt.day hd1 hd2]
  have e1 : (dt.hour * 3600 + dt.minute * 60 + dt.second + 0) % 86400 / 3600 =
      dt.hour := by omega
  have e2 : (dt.hour * 3600 + dt.minute * 60 + dt.second + 0) % 86400 % 3600 / 60 =
      dt.minute := by omega
  have e3 : (dt.hour * 3600 + dt.minute * 60 + dt.second + 0) % 86400 % 60 =
      dt.second := by omega
  rw [e1, e2, e3]

theorem matchDay_bound (cs : List Char) (v : Nat) (r : List Char)
    (h : matchDay cs = some (v, r)) : 1 ≤ v ∧ v ≤ 31 := by
  cases cs with
  | nil => simp [matchDay] at h
  | cons c1 rest1 =>
    cases hd1 : charDigit c1 with
    | none => simp [matchDay, hd1] at h
    | some d1 =>
      have hb1 := charDigit_bound c1 d1 hd1
      cases rest1 with
      | nil =>
        simp only [matchDay, hd1] at h
        split_ifs at h <;>
          first
          | (simp only [Option.some.injEq, Prod.mk.injEq] at h; omega)
          | simp at h
      | cons c2 rest2 =>
        cases hd2 : charDigit c2 with
        | none =>
          simp only [matchDay, hd1, hd2] at h
          split_ifs at h <;>
            first
            | (simp only [Option.some.injEq, Prod.mk.injEq] at h; omega)
            | simp at h
        | some d2 =>
          have hb2 := charDigit_bound c2 d2 hd2
          simp only [matchDay, hd1, hd2] at h
          split_ifs at h <;>
            first
            | (simp only [Option.some.injEq, Prod.mk.injEq] at h; omega)
            | simp at h

theorem matchYear4_bound (cs : List Char) (v : Nat) (r : List Char)
    (h : matchYear4 cs = some (v, r)) : v ≤ 9999 := by
  match cs with
  | [] => simp [matchYear4] at h
  | [a] => simp [matchYear4] at h
  | [a, b] => simp [matchYear4] at h
  | [a, b, c] => simp [matchYear4] at h
  | a :: b :: c :: e :: rest =>
    cases ha : charDigit a with
    | none => simp [matchYear4, ha] at h
    | some va =>
      cases hb : charDigit b with
      | none => simp [matchYear4, ha, hb] at h
      | some vb =>
        cases hc : charDigit c with
        | none => simp [matchYear4, ha, hb, hc] at h
        | some vc =>
          cases he : charDigit e with
          | none => simp [matchYear4, ha, hb, hc, he] at h
          | some ve =>
            have b1 := charDigit_bound a va ha
            have b2 := charDigit_bound b vb hb
            have b3 := charDigit_bound c vc hc
            have b4 := charDigit_bound e ve he
            simp only [matchYear4, ha, hb, hc, he, Option.some.injEq, Prod.mk.injEq] at h
            omega

theorem matchMonthName_bound (cs : List Char) (v : Nat) (r : List Char)
    (h : matchMonthName cs = some (v, r)) : 1 ≤ v ∧ v ≤ 12 := by
  unfold matchMonthName at h
  obtain ⟨w, hw⟩ := matchNameCI_val _ _ _ _ h
  simp at hw
  rcases hw with ⟨-, h'⟩ | ⟨-, h'⟩ | ⟨-, h'⟩ | ⟨-, h'⟩ | ⟨-, h'⟩ | ⟨-, h'⟩ | ⟨-, h'⟩ |
    ⟨-, h'⟩ | ⟨-, h'⟩ | ⟨-, h'⟩ | ⟨-, h'⟩ | ⟨-, h'⟩ <;> omega

theorem hourFrom12_bound (h12 ap : Nat) (h1 : 1 ≤ h12) (h2 : h12 ≤ 12) :
    hourFrom12 h12 ap ≤ 23 := by
  unfold hourFrom12
  split_ifs <;> omega

theorem parseDateLong_canonical (s : String) (dt : DT)
    (h : parseDateLong s = some dt) :
    canonical dt ∧ 1 ≤ dt.year ∧ dt.year ≤ 9999 ∧ dt.second = 0 := by
  unfold parseDateLong at h
  cases h1 : matchWeekday s.data with
  | none => simp only [h1] at h; exact Option.noConfusion h
  | some p1 =>
    obtain ⟨w, r1⟩ := p1
    simp only [h1] at h
    cases h2 : expectCh ',' r1 with
    | none => simp only [h2] at h; exact Option.noConfusion h
    | some r2 =>
      simp only [h2] at h
      cases h3 : matchWs r2 with
      | none => simp only [h3] at h; exact Option.noConfusion h
      | some r3 =>
        simp only [h3] at h
        cases h4 : matchMonthName r3 with
        | none => simp only [h4] at h; exact Option.noConfusion h
        | some p4 =>
          obtain ⟨mo, r4⟩ := p4
          simp only [h4] at h
          have hmo := matchMonthName_bound _ _ _ h4
          cases h5 : matchWs r4 with
          | none => simp only [h5] at h; exact Option.noConfusion h
          | some r5 =>
            simp only [h5] at h
            cases h6 : matchDay r5 with
            | none => simp only [h6] at h; exact Option.noConfusion h
            | some p6 =>
              obtain ⟨dy, r6⟩ := p6
              simp only [h6] at h
              have hdy := matchDay_bound _ _ _ h6
              cases h7 : matchWs r6 with
              | none => simp only [h7] at h; exact Option.noConfusion h
              | some r7 =>
                simp only [h7] at h
                cases h8 : matchYear4 r7 with
                | none => simp only [h8] at h; exact Option.noConfusion h
                | some p8 =>
                  obtain ⟨yr, r8⟩ := p8
                  simp only [h8] at h
                  have hyr := matchYear4_bound _ _ _ h8
                  cases h9 : matchWs r8 with
                  | none => simp only [h9] at h; exact Option.noConfusion h
                  | some r9 =>
                    simp only [h9] at h
                    cases h10 : matchTwelve r9 with
                    | none => simp only [h10] at h; exact Option.noConfusion h
                    | some p10 =>
                      obtain ⟨h12, r10⟩ := p10
                      simp only [h10] at h
                      have hh12 := matchTwelve_bound _ _ _ h10
                      cases h11 : expectCh ':' r10 with
                      | none => simp only [h11] at h; exact Option.noConfusion h
                      | some r11 =>
                        simp only [h11] at h
                        cases h12' : matchMin r11 with
                        | none => simp only [h12'] at h; exact Option.noConfusion h
                        | some p12 =>
                          obtain ⟨mi, r12⟩ := p12
                          simp only [h12'] at h
                          have hmi := matchMin_bound _ _ _ h12'
                          cases h13 : matchWs r12 with
                          | none => simp only [h13] at h; exact Option.noConfusion h
                          | some r13 =>
                            simp only [h13] at h
                            cases h14 : matchAmPm r13 with
                            | none => simp only [h14] at h; exact Option.noConfusion h
                            | some p14 =>
                              obtain ⟨ap, r14⟩ := p14
                              simp only [h14] at h
                              split_ifs at h with hg
                              · simp only [Option.some.injEq] at h
                                subst h
                                have hhour := hourFrom12_bound h12 ap hh12.1 hh12.2
                                refine ⟨⟨by simp; omega, by simp; omega, by simp; omega,
                                  by simpa using hg.2.2.2, by simp, by simpa using hhour,
                                  by simp, by simp; omega, by simp, by simp⟩,
                                  by simp; omega, by simp; omega, by simp⟩

theorem nyOffsetSeconds_bounds (dt : DT) :
    0 ≤ nyOffsetSeconds dt ∧ nyOffsetSeconds dt ≤ 18000 := by
  unfold nyOffsetSeconds
  split_ifs <;> omega

theorem computeTimes_some_inv (date rt s stStr enStr : String)
    (h : computeTimes date rt s = .ok (some (stStr, enStr))) :
    ∃ utcS : DT, stStr = fmtUTC utcS ∧ canonical utcS ∧ 1 ≤ utcS.year ∧
      utcS.year ≤ 9999 := by
  unfold computeTimes at h
  cases h1 : parseDateLong (date ++ " " ++ s) with
  | none => simp only [h1] at h; exact Option.noConfusion (Except.ok.inj h)
  | some dtLoc =>
    simp only [h1] at h
    obtain ⟨hcloc, hy1, hy2, -⟩ := parseDateLong_canonical _ _ h1
    cases h2 : parseRuntime rt with
    | none => simp only [h2] at h; exact Option.noConfusion (Except.ok.inj h)
    | some p =>
      obtain ⟨hh, mm⟩ := p
      simp only [h2] at h
      cases h3 : pyAddSecondsE dtLoc (hh * 3600 + mm * 60) with
      | error e => simp only [h3] at h; exact Except.noConfusion h
      | ok endLoc =>
        simp only [h3] at h
        cases h4 : nyToUtcE dtLoc with
        | error e => simp only [h4] at h; exact Except.noConfusion h
        | ok utcS =>
          simp only [h4] at h
          cases h5 : nyToUtcE endLoc with
          | error e => simp only [h5] at h; exact Except.noConfusion h
          | ok utcE =>
            simp only [h5] at h
            simp only [Except.ok.injEq, Option.some.injEq, Prod.mk.injEq] at h
            refine ⟨utcS, h.1.symm, ?_⟩
            unfold nyToUtcE pyAddSecondsE at h4
            dsimp only at h4
            split_ifs at h4 with hb
            obtain ⟨hc', -, -⟩ := pyAddSeconds_small dtLoc (nyOffsetSeconds dtLoc)
              hcloc (nyOffsetSeconds_bounds dtLoc).1 (nyOffsetSeconds_bounds dtLoc).2
            simp only [Except.ok.injEq] at h4
            subst h4
            exact ⟨hc', hb.1, hb.2⟩

theorem pyStrip_of_nonws (l : List Char) (h : ∀ c ∈ l, wsChar c = false) :
    pyStrip l = l := by
  have hdrop : ∀ l' : List Char, (∀ c ∈ l', wsChar c = false) →
      l'.dropWhile wsChar = l' := by
    intro l' h'
    cases l' with
    | nil => rfl
    | cons c t =>
      rw [List.dropWhile_cons, h' c (List.mem_cons_self c t)]
      simp
  unfold pyStrip
  rw [hdrop l h, hdrop l.reverse (fun c hc => h c (List.mem_reverse.mp hc)),
    List.reverse_reverse]

theorem pad2_nonws (v : Int) (h0 : 0 ≤ v) (h1 : v < 100) :
    ∀ c ∈ pad2 v, wsChar c = false := by
  rw [pad2_eq v h0 h1]
  intro c hc
  simp only [List.mem_cons, List.not_mem_nil, or_false] at hc
  rcases hc with rfl | rfl <;> exact wsChar_dchN _

theorem pad4_nonws (v : Int) (h0 : 0 ≤ v) (h1 : v < 10000) :
    ∀ c ∈ pad4 v, wsChar c = false := by
  rw [pad4_eq v h0 h1]
  intro c hc
  simp only [List.mem_cons, List.not_mem_nil, or_false] at hc
  rcases hc with rfl | rfl | rfl | rfl <;> exact wsChar_dchN _

theorem fmtUTC_nonws (dt : DT) (hc : canonical dt) (hy1 : 1 ≤ dt.year)
    (hy2 : dt.year ≤ 9999) : ∀ c ∈ (fmtUTC dt).data, wsChar c = false := by
  obtain ⟨hm1, hm2, hd1, hd2, hh1, hh2, hmi1, hmi2, hs1, hs2⟩ := hc
  have hd31 : dt.day ≤ 31 := le_trans hd2 (dim_bounds dt.year dt.month).2
  rw [fmtUTC_data]
  intro c hc'
  have hor : c ∈ pad4 dt.year ∨ c ∈ pad2 dt.month ∨ c ∈ pad2 dt.day ∨
      c ∈ pad2 dt.hour ∨ c ∈ pad2 dt.minute ∨ c ∈ pad2 dt.second ∨
      c = '-' ∨ c = 'T' ∨ c = ':' ∨ c = 'Z' := by
    simp only [List.mem_append, List.mem_cons, List.not_mem_nil, or_false] at hc'
    tauto
  rcases hor with h | h | h | h | h | h | rfl | rfl | rfl | rfl
  · exact pad4_nonws dt.year (by omega) (by omega) c h
  · exact pad2_nonws dt.month (by omega) (by omega) c h
  · exact pad2_nonws dt.day (by omega) (by omega) c h
  · exact pad2_nonws dt.hour (by omega) (by omega) c h
  · exact pad2_nonws dt.minute (by omega) (by omega) c h
  · exact pad2_nonws dt.second (by omega) (by omega) c h
  · rfl
  · rfl
  · rfl
  · rfl

theorem pyStripS_fmtUTC (dt : DT) (hc : canonical dt) (hy1 : 1 ≤ dt.year)
    (hy2 : dt.year ≤ 9999) : pyStripS (fmtUTC dt) = fmtUTC dt := by
  unfold pyStripS
  rw [pyStrip_of_nonws _ (fmtUTC_nonws dt hc hy1 hy2)]

theorem fmtUTC_ne_empty (dt : DT) (hc : canonical dt) (hy1 : 1 ≤ dt.year)
    (hy2 : dt.year ≤ 9999) : fmtUTC dt ≠ "" := by
  intro h
  have := congrArg String.data h
  rw [fmtUTC_data, pad4_eq dt.year (by omega) (by omega)] at this
  simp at this

/-! ### Lemmas: the event index -/

theorem fetchAllAux_append (a b : List RemoteEvent) (d : EvDict) :
    fetchAllAux (a ++ b) d =
      match fetchAllAux a d with
      | .error e => .error e
      | .ok d' => fetchAllAux b d' := by
  induction a generalizing d with
  | nil => rfl
  | cons e rest ih =>
    have l1 : fetchAllAux ((e :: rest) ++ b) d =
        match fetchEventKey e with
        | .error err => .error err
        | .ok none => fetchAllAux (rest ++ b) d
        | .ok (some k) => fetchAllAux (rest ++ b) (updD d k e.id) := rfl
    have l2 : fetchAllAux (e :: rest) d =
        match fetchEventKey e with
        | .error err => .error err
        | .ok none => fetchAllAux rest d
        | .ok (some k) => fetchAllAux rest (updD d k e.id) := rfl
    rw [l1, l2]
    cases fetchEventKey e with
    | error err => rfl
    | ok o =>
      cases o with
      | none => exact ih d
      | some k => exact ih (updD d k e.id)

theorem fetchAllAux_mono (evs : List RemoteEvent) (d d' : EvDict) (k : String × String)
    (h : fetchAllAux evs d = .ok d') (hk : (d k).isSome) : (d' k).isSome := by
  induction evs generalizing d with
  | nil => cases h; exact hk
  | cons e rest ih =>
    unfold fetchAllAux at h
    cases hke : fetchEventKey e with
    | error err => rw [hke] at h; exact Except.noConfusion h
    | ok o =>
      cases o with
      | none => rw [hke] at h; exact ih d h hk
      | some k' =>
        rw [hke] at h
        refine ih (updD d k' e.id) h ?_
        unfold updD
        by_cases hkk : k = k' <;> simp [hkk, hk]

theorem fetchAllAux_mem (evs : List RemoteEvent) (d d' : EvDict) (e : RemoteEvent)
    (k : String × String) (h : fetchAllAux evs d = .ok d') (he : e ∈ evs)
    (hke : fetchEventKey e = .ok (some k)) : (d' k).isSome := by
  induction evs generalizing d with
  | nil => cases he
  | cons a rest ih =>
    unfold fetchAllAux at h
    rcases List.mem_cons.mp he with rfl | hmem
    · rw [hke] at h
      refine fetchAllAux_mono rest _ d' k h ?_
      unfold updD
      simp
    · cases hka : fetchEventKey a with
      | error err => rw [hka] at h; exact Except.noConfusion h
      | ok o =>
        cases o with
        | none => rw [hka] at h; exact ih d h hmem
        | some k' => rw [hka] at h; exact ih (updD d k' a.id) h hmem

theorem fetchEventKey_inserted (id' summary stStr loc descr : String)
    (enDT : Option String) (utcS : DT)
    (hst : stStr = fmtUTC utcS) (hcan : canonical utcS) (hy1 : 1 ≤ utcS.year)
    (hy2 : utcS.year ≤ 9999) (htitle : pyStripS summary ≠ "") :
    fetchEventKey ⟨id', summary, some stStr, enDT, loc, descr⟩ =
      .ok (some (pyStripS summary, stStr)) := by
  subst hst
  unfold fetchEventKey
  dsimp only
  rw [show (some (fmtUTC utcS)).getD "" = fmtUTC utcS from rfl,
    pyStripS_fmtUTC utcS hcan hy1 hy2]
  rw [if_pos ⟨htitle, fmtUTC_ne_empty utcS hcan hy1 hy2⟩]
  rw [parseIsoZ_fmtUTC utcS hcan hy1 hy2]
  show (match pyAddSecondsE utcS (-(0 : Int)) with
    | Except.error err => Except.error err
    | Except.ok utc => Except.ok (some (pyStripS summary, fmtUTC utc))) = _
  have hok : pyAddSecondsE utcS (-(0 : Int)) = .ok utcS := by
    rw [show (-(0 : Int)) = 0 from rfl]
    unfold pyAddSecondsE
    dsimp only
    rw [pyAddSeconds_zero utcS hcan, if_pos ⟨hy1, hy2⟩]
  rw [hok]

/-! ### Lemmas: reconciler state growth, probe coverage, all-hit runs -/

theorem processShowtime_state_append (f : Nat → Bool) (d : EvDict) (mv : Movie)
    (s : String) (acc out : RunAcc) (h : processShowtime f d mv s acc = .ok out) :
    ∃ L, out.state = acc.state ++ L := by
  unfold processShowtime at h
  by_cases hv : validate_showtime s = false
  · rw [if_pos hv] at h
    cases h
    exact ⟨[], by simp⟩
  · rw [if_neg hv] at h
    cases hct : computeTimes mv.date mv.runtime s with
    | error e => rw [hct] at h; exact Except.noConfusion h
    | ok o =>
      cases o with
      | none =>
        simp only [hct] at h
        cases h
        exact ⟨[], by simp⟩
      | some p =>
        obtain ⟨stStr, enStr⟩ := p
        simp only [hct] at h
        cases hk : d (pyStripS mv.title, stStr) with
        | some eid =>
          simp only [hk] at h
          cases h
          exact ⟨[], by simp⟩
        | none =>
          simp only [hk] at h
          cases hins : f acc.insCalls with
          | true =>
            simp only [hins, if_true] at h
            exact Except.noConfusion h
          | false =>
            simp only [hins, if_false] at h
            cases h
            exact ⟨_, rfl⟩

theorem processShowtimes_state_append (f : Nat → Bool) (d : EvDict) (mv : Movie)
    (sts : List String) (acc out : RunAcc)
    (h : processShowtimes f d mv sts acc = .ok out) :
    ∃ L, out.state = acc.state ++ L := by
  induction sts generalizing acc with
  | nil => cases h; exact ⟨[], by simp⟩
  | cons s rest ih =>
    rw [processShowtimes_cons] at h
    cases hstep : processShowtime f d mv s acc with
    | error e => rw [hstep] at h; exact Except.noConfusion h
    | ok a =>
      rw [hstep] at h
      obtain ⟨L1, hL1⟩ := processShowtime_state_append f d mv s acc a hstep
      obtain ⟨L2, hL2⟩ := ih a h
      exact ⟨L1 ++ L2, by rw [hL2, hL1, List.append_assoc]⟩

theorem processMovies_state_append (f : Nat → Bool) (d : EvDict) (movies : List Movie)
    (acc out : RunAcc) (h : processMovies f d movies acc = .ok out) :
    ∃ L, out.state = acc.state ++ L := by
  induction movies generalizing acc with
  | nil => cases h; exact ⟨[], by simp⟩
  | cons mv rest ih =>
    rw [processMovies_cons] at h
    cases hstep : processShowtimes f d mv mv.showtimes acc with
    | error e => rw [hstep] at h; exact Except.noConfusion h
    | ok a =>
      rw [hstep] at h
      obtain ⟨L1, hL1⟩ := processShowtimes_state_append f d mv mv.showtimes acc a hstep
      obtain ⟨L2, hL2⟩ := ih a h
      exact ⟨L1 ++ L2, by rw [hL2, hL1, List.append_assoc]⟩

theorem processShowtimes_cover (f : Nat → Bool) (d : EvDict) (mv : Movie)
    (sts : List String) (acc out : RunAcc)
    (h : processShowtimes f d mv sts acc = .ok out)
    (s stStr enStr : String) (hs : s ∈ sts) (hv : validate_showtime s = true)
    (hct : computeTimes mv.date mv.runtime s = .ok (some (stStr, enStr)))
    (hmiss : d (pyStripS mv.title, stStr) = none) :
    ∃ ev ∈ out.state, ev.summary = mv.title ∧ ev.startDT = some stStr := by
  induction sts generalizing acc with
  | nil => cases hs
  | cons x rest ih =>
    rw [processShowtimes_cons] at h
    cases hstep : processShowtime f d mv x acc with
    | error e => rw [hstep] at h; exact Except.noConfusion h
    | ok a =>
      rw [hstep] at h
      rcases List.mem_cons.mp hs with rfl | hmem
      · unfold processShowtime at hstep
        rw [if_neg (by simp [hv])] at hstep
        simp only [hct, hmiss] at hstep
        cases hins : f acc.insCalls with
        | true =>
          simp only [hins, if_true] at hstep
          exact Except.noConfusion hstep
        | false =>
          simp only [hins, if_false] at hstep
          cases hstep
          obtain ⟨L2, hL2⟩ := processShowtimes_state_append f d mv rest _ out h
          refine ⟨⟨mkEventId acc.state.length, mv.title, some stStr, some enStr,
            mv.theater, movieDescription mv⟩, ?_, rfl, rfl⟩
          rw [hL2]
          exact List.mem_append_left _ (by simp)
      · exact ih a h hmem
  
theorem processMovies_cover (f : Nat → Bool) (d : EvDict) (movies : List Movie)
    (acc out : RunAcc) (h : processMovies f d movies acc = .ok out)
    (mv : Movie) (s stStr enStr : String) (hmv : mv ∈ movies) (hs : s ∈ mv.showtimes)
    (hv : validate_showtime s = true)
    (hct : computeTimes mv.date mv.runtime s = .ok (some (stStr, enStr)))
    (hmiss : d (pyStripS mv.title, stStr) = none) :
    ∃ ev ∈ out.state, ev.summary = mv.title ∧ ev.startDT = some stStr := by
  induction movies generalizing acc with
  | nil => cases hmv
  | cons m rest ih =>
    rw [processMovies_cons] at h
    cases hstep : processShowtimes f d m m.showtimes acc with
    | error e => rw [hstep] at h; exact Except.noConfusion h
    | ok a =>
      rw [hstep] at h
      rcases List.mem_cons.mp hmv with rfl | hmem
      · obtain ⟨ev, hev, h1, h2⟩ :=
          processShowtimes_cover f d mv mv.showtimes acc a hstep s stStr enStr hs hv hct hmiss
        obtain ⟨L2, hL2⟩ := processMovies_state_append f d rest a out h
        exact ⟨ev, by rw [hL2]; exact List.mem_append_left _ hev, h1, h2⟩
      · exact ih a h hmem

theorem processShowtimes_allhit (f : Nat → Bool) (d : EvDict) (mv : Movie)
    (sts : List String) (acc out : RunAcc)
    (h : processShowtimes f d mv sts acc = .ok out)
    (hhit : ∀ s ∈ sts, ∀ stStr enStr, validate_showtime s = true →
      computeTimes mv.date mv.runtime s = .ok (some (stStr, enStr)) →
      (d (pyStripS mv.title, stStr)).isSome) :
    out.state = acc.state ∧ out.insertedIds = acc.insertedIds := by
  induction sts generalizing acc with
  | nil => cases h; exact ⟨rfl, rfl⟩
  | cons x rest ih =>
    rw [processShowtimes_cons] at h
    cases hstep : processShowtime f d mv x acc with
    | error e => rw [hstep] at h; exact Except.noConfusion h
    | ok a =>
      rw [hstep] at h
      have hstepinv : a.state = acc.state ∧ a.insertedIds = acc.insertedIds := by
        unfold processShowtime at hstep
        by_cases hv : validate_showtime x = false
        · rw [if_pos hv] at hstep
          cases hstep
          exact ⟨rfl, rfl⟩
        · rw [if_neg hv] at hstep
          cases hct : computeTimes mv.date mv.runtime x with
          | error e => rw [hct] at hstep; exact Except.noConfusion hstep
          | ok o =>
            cases o with
            | none =>
              simp only [hct] at hstep
              cases hstep
              exact ⟨rfl, rfl⟩
            | some p =>
              obtain ⟨stStr, enStr⟩ := p
              simp only [hct] at hstep
              have hsome := hhit x (List.mem_cons_self x rest) stStr enStr
                (by revert hv; cases validate_showtime x <;> simp) hct
              cases hk : d (pyStripS mv.title, stStr) with
              | none => rw [hk] at hsome; cases hsome
              | some eid =>
                simp only [hk] at hstep
                cases hstep
                exact ⟨rfl, rfl⟩
      obtain ⟨hs1, hs2⟩ := ih a h (fun s hs => hhit s (List.mem_cons_of_mem x hs))
      exact ⟨hs1.trans hstepinv.1, hs2.trans hstepinv.2⟩

theorem processMovies_allhit (f : Nat → Bool) (d : EvDict) (movies : List Movie)
    (acc out : RunAcc) (h : processMovies f d movies acc = .ok out)
    (hhit : ∀ mv ∈ movies, ∀ s ∈ mv.showtimes, ∀ stStr enStr,
      validate_showtime s = true →
      computeTimes mv.date mv.runtime s = .ok (some (stStr, enStr)) →
      (d (pyStripS mv.title, stStr)).isSome) :
    out.state = acc.state ∧ out.insertedIds = acc.insertedIds := by
  induction movies generalizing acc with
  | nil => cases h; exact ⟨rfl, rfl⟩
  | cons m rest ih =>
    rw [processMovies_cons] at h
    cases hstep : processShowtimes f d m m.showtimes acc with
    | error e => rw [hstep] at h; exact Except.noConfusion h
    | ok a =>
      rw [hstep] at h
      obtain ⟨h1, h2⟩ := processShowtimes_allhit f d m m.showtimes acc a hstep
        (fun s hs => hhit m (List.mem_cons_self m rest) s hs)
      obtain ⟨h3, h4⟩ := ih a h (fun mv hmv => hhit mv (List.mem_cons_of_mem m hmv))
      exact ⟨h3.trans h1, h4.trans h2⟩

theorem fetchAllAux_last (evs : List RemoteEvent) (ev : RemoteEvent) (d d' : EvDict)
    (k : String × String) (h : fetchAllAux (evs ++ [ev]) d = .ok d')
    (hke : fetchEventKey ev = .ok (some k)) : d' k = some ev.id := by
  rw [fetchAllAux_append] at h
  cases hmid : fetchAllAux evs d with
  | error e => rw [hmid] at h; exact Except.noConfusion h
  | ok dmid =>
    simp only [hmid] at h
    simp only [fetchAllAux, hke] at h
    cases h
    unfold updD
    simp

/-- C1 counterexample: a record whose title strips to the empty string
defeats idempotence.  The first run on an empty sink inserts it (the
reconciler probes the index but never checks the title), yet the re-index
of the second run skips the inserted event (`fetch_all_existing_events`
drops events with an empty stripped summary), so the probe misses again
and the second run inserts a duplicate: sink sizes go 1 then 2, and the
second run's inserted-id list is non-empty. -/
theorem claim_c1_counterexample :
    (update_google_calendar (fun _ => false) [] [c1BadMovie]).bind (fun o1 =>
      (update_google_calendar (fun _ => false) o1.state [c1BadMovie]).map
        (fun o2 => (o1.state.length, o1.insertedIds, o2.state.length, o2.insertedIds))) =
    .ok (1, ["gen0"], 2, ["gen1"]) := rfl

/-- C1 (amended): reconciliation is idempotent for records whose stripped
title is non-empty.  If a first `update_google_calendar` run with no sink
failures turns sink `st0` into `out1`, then a second run over the same
movie list against `out1`'s sink changes nothing and inserts zero events:
every identity-key probe of the second run hits the re-built index. -/
theorem claim_c1_idempotent (st0 : List RemoteEvent) (movies : List Movie)
    (out1 out2 : RunAcc)
    (htitle : ∀ mv ∈ movies, pyStripS mv.title ≠ "")
    (h1 : update_google_calendar (fun _ => false) st0 movies = .ok out1)
    (h2 : update_google_calendar (fun _ => false) out1.state movies = .ok out2) :
    out2.state = out1.state ∧ out2.insertedIds = [] := by
  unfold update_google_calendar at h1 h2
  cases hf0 : fetch_all_existing_events st0 with
  | error e => rw [hf0] at h1; exact Except.noConfusion h1
  | ok d0 =>
    rw [hf0] at h1
    cases hf1 : fetch_all_existing_events out1.state with
    | error e => rw [hf1] at h2; exact Except.noConfusion h2
    | ok d1 =>
      rw [hf1] at h2
      obtain ⟨L, hL⟩ := processMovies_state_append _ d0 movies _ out1 h1
      have hL' : out1.state = st0 ++ L := hL
      have hchain : fetchAllAux L d0 = .ok d1 := by
        have hf1' : fetchAllAux (st0 ++ L) (fun _ => none) = .ok d1 := by
          rw [← hL']
          exact hf1
        rw [fetchAllAux_append st0 L] at hf1'
        have hf0' : fetchAllAux st0 (fun _ => none) = .ok d0 := hf0
        simp only [hf0'] at hf1'
        exact hf1'
      have hhit : ∀ mv ∈ movies, ∀ s ∈ mv.showtimes, ∀ stStr enStr,
          validate_showtime s = true →
          computeTimes mv.date mv.runtime s = .ok (some (stStr, enStr)) →
          (d1 (pyStripS mv.title, stStr)).isSome := by
        intro mv hmv s hs stStr enStr hv hct
        cases hk0 : d0 (pyStripS mv.title, stStr) with
        | some eid =>
          exact fetchAllAux_mono L d0 d1 _ hchain (by rw [hk0]; rfl)
        | none =>
          obtain ⟨ev, hev, hsum, hstart⟩ :=
            processMovies_cover _ d0 movies _ out1 h1 mv s stStr enStr hmv hs hv hct hk0
          obtain ⟨utcS, hst, hcan, hy1, hy2⟩ := computeTimes_some_inv _ _ _ _ _ hct
          have hkey : fetchEventKey ev = .ok (some (pyStripS mv.title, stStr)) := by
            obtain ⟨i, su, sd, ed, lo, de⟩ := ev
            have hsum' : su = mv.title := hsum
            have hstart' : sd = some stStr := hstart
            subst hsum'
            subst hstart'
            exact fetchEventKey_inserted i mv.title stStr lo de ed utcS hst hcan hy1 hy2
              (htitle mv hmv)
          exact fetchAllAux_mem out1.state _ d1 ev _ hf1 hev hkey
      exact processMovies_allhit _ d1 movies ⟨out1.state, [], 0, []⟩ out2 h2 hhit

theorem claim_c1_idempotent_witness :
    c1Run2.state = c1Run1.state ∧ c1Run2.insertedIds = [] :=
  claim_c1_idempotent [] [c1GoodMovie] c1Run1 c1Run2
    (by decide) rfl rfl

/-- C2 counterexample: for a record whose title strips to the empty string
(here a single space), the insert succeeds and returns an id, but
re-listing and re-indexing the sink produces no `EventIndex` entry at the
record's key - `fetch_all_existing_events` skips events whose stripped
summary is empty, so the round trip loses the key. -/
theorem claim_c2_counterexample :
    (update_google_calendar (fun _ => false) [] [c2BadMovie]).bind (fun out =>
      (fetch_all_existing_events out.state).map (fun d1 =>
        (out.insertedIds, d1 (pyStripS c2BadMovie.title, "2024-06-15T23:30:00Z")))) =
    .ok (["gen0"], none) := rfl

/-- C2 (amended): round-trip key stability holds for records whose
stripped title is non-empty.  If the reconciler, run against sink `st0`
whose index misses the record's key, processes a single movie with a
single valid showtime whose time computation yields UTC start `stStr`,
then it inserts exactly one event whose server id is `mkEventId
st0.length`, and re-listing and re-indexing the resulting sink maps the
key `(stripped title, stStr)` to exactly that id. -/
theorem claim_c2_roundtrip (st0 : List RemoteEvent) (mv : Movie) (s : String)
    (d0 d1 : EvDict) (stStr enStr : String) (out : RunAcc)
    (htitle : pyStripS mv.title ≠ "")
    (hf0 : fetch_all_existing_events st0 = .ok d0)
    (hshow : mv.showtimes = [s])
    (hv : validate_showtime s = true)
    (hct : computeTimes mv.date mv.runtime s = .ok (some (stStr, enStr)))
    (hmiss : d0 (pyStripS mv.title, stStr) = none)
    (h : update_google_calendar (fun _ => false) st0 [mv] = .ok out)
    (hf1 : fetch_all_existing_events out.state = .ok d1) :
    out.insertedIds = [mkEventId st0.length] ∧
    d1 (pyStripS mv.title, stStr) = some (mkEventId st0.length) := by
  unfold update_google_calendar at h
  simp only [hf0] at h
  rw [processMovies_cons, hshow] at h
  have hstep : processShowtime (fun _ => false) d0 mv s ⟨st0, [], 0, []⟩ =
      .ok ⟨st0 ++ [⟨mkEventId st0.length, mv.title, some stStr, some enStr,
            mv.theater, movieDescription mv⟩],
          [mkEventId st0.length], 1, [mkEventId st0.length]⟩ := by
    unfold processShowtime
    rw [if_neg (by simp [hv])]
    simp only [hct, hmiss]
    rfl
  rw [processShowtimes_cons] at h
  simp only [hstep] at h
  cases h
  refine ⟨rfl, ?_⟩
  obtain ⟨utcS, hst, hcan, hy1, hy2⟩ := computeTimes_some_inv _ _ _ _ _ hct
  exact fetchAllAux_last st0 _ _ d1 _ hf1
    (fetchEventKey_inserted (mkEventId st0.length) mv.title stStr mv.theater
      (movieDescription mv) (some enStr) utcS hst hcan hy1 hy2 htitle)

theorem claim_c2_roundtrip_witness :
    (⟨[{ id := "gen0", summary := "C2 Movie",
         startDT := some "2024-06-15T23:30:00Z",
         endDT := some "2024-06-16T01:15:00Z", location := "T2",
         description := "None\nDirector: D\n2024, Drama, 1h 45m\nTheater: T2" }],
       ["gen0"], 1, ["gen0"]⟩ : RunAcc).insertedIds = [mkEventId (0 : Nat)] ∧
    c2Dict (pyStripS c2GoodMovie.title, "2024-06-15T23:30:00Z") =
      some (mkEventId (0 : Nat)) :=
  claim_c2_roundtrip [] c2GoodMovie "7:30 PM" (fun _ => none) c2Dict
    "2024-06-15T23:30:00Z" "2024-06-16T01:15:00Z" _
    (by decide) rfl rfl rfl rfl rfl rfl rfl
